import Mathlib

/-!
Verification of the go3mf merge/combination engine.

This file is a shallow embedding, over `ℚ` and `List`, of the parts of the
go3mf repository that the verified properties talk about:

* `internal/geometry/bbox.go` — bounding boxes over string-encoded vertices,
  transform parsing (`fmt.Sscanf`), combined bounding boxes and Z offsets;
* `internal/geometry/packing.go` — the shelf packer `PackOptimal` and the
  guillotine packer `PackCompact`;
* the transform builders `BuildRotationTransform` / `BuildTranslationTransform`
  and the transform-offset parser `ParseTransformOffset`;
* the merger `combineWithGroupsAndDistanceInternal` of the `threemf` package;
* the settings writer `WriteModelSettings`.

Modelling conventions:

* Go `float64` values are modelled as rationals.  The operations the claims
  depend on (comparisons, min/max, addition, multiplication by small
  constants, decimal formatting and parsing) are exact on the inputs under
  consideration, so `ℚ` is faithful there.  `math.Sqrt`, which has no exact
  rational counterpart, is taken as an explicit parameter (`sqrtModel`); all
  theorems about `PackCompact` hold for every choice of that parameter.
* Go strings are modelled as `String` / `List Char`; `strconv.ParseFloat` is
  modelled on its decimal subset (sign, digits, fraction, exponent) — the
  `Inf`/`NaN`/hex forms never arise in this code base.
* `strconv.Itoa`-produced identifiers are kept as numbers: `Itoa` is
  injective, and every claim about IDs is about their numeric value.
* Go's `sort.Slice` is unstable and its order on comparator-equal elements is
  unspecified; it is modelled as an insertion sort with the same comparator,
  which realizes one admissible order.
-/

namespace Go3mf

/-! ### Decimal digits -/

/-- Value of a decimal digit character (`'0'`–`'9'`). -/
def digitVal (c : Char) : ℕ := c.toNat - 48

/-- Numeric value of a big-endian list of decimal digit characters, exactly as
`strconv.ParseFloat` accumulates mantissa digits. -/
def digitsVal (l : List Char) : ℕ := l.foldl (fun a c => 10 * a + digitVal c) 0

/-- Digit characters of a natural number, least-significant first.  The first
argument is fuel so the recursion is structural and kernel-reducible; any
fuel above the number itself is enough. -/
def natDigitsRevAux : ℕ → ℕ → List Char
  | 0, _ => []
  | fuel + 1, n =>
    if n < 10 then [Nat.digitChar n]
    else Nat.digitChar (n % 10) :: natDigitsRevAux fuel (n / 10)

/-- Decimal digit characters of a natural number, most-significant first:
the digits `strconv.Itoa`/`strconv.FormatFloat` emit for the integer part. -/
def natToDigits (n : ℕ) : List Char := (natDigitsRevAux (n + 1) n).reverse

/-- Exactly `p` decimal digit characters for `m < 10 ^ p`, with leading
zeros: the fractional digits a `%.<p>f` verb emits. -/
def natToFixed : ℕ → ℕ → List Char
  | 0, _ => []
  | p + 1, m => Nat.digitChar (m / 10 ^ p) :: natToFixed p (m % 10 ^ p)

/-! ### Go `strconv.ParseFloat`, decimal subset -/

/-- Leading run of decimal digits and the remainder, as the float scanner
consumes mantissa and exponent digits. -/
def spanDigits : List Char → List Char × List Char
  | [] => ([], [])
  | c :: r =>
    if c.isDigit then
      let p := spanDigits r
      (c :: p.1, p.2)
    else ([], c :: r)

/-- Whether a character list starts with the given character. -/
def startsWith (c : Char) : List Char → Bool
  | [] => false
  | d :: _ => d = c

/-- Exponent part after the `e`/`E` marker: optional sign, then digits that
must reach the end of the input. -/
def parseExp (l : List Char) : Option ℤ :=
  let sg : ℤ := if startsWith '-' l then -1 else 1
  let l1 := if startsWith '-' l || startsWith '+' l then l.tail else l
  let ds := spanDigits l1
  if ds.1 = [] then none
  else if ds.2 = [] then some (sg * digitsVal ds.1) else none

/-- `strconv.ParseFloat` on its decimal subset: optional sign, digits with an
optional fractional part (at least one mantissa digit), optional exponent;
the whole input must be consumed.  The `Inf`/`NaN`/hexadecimal forms of the
real parser never arise in this code base and are not modelled. -/
def parseFloatCore (l : List Char) : Option ℚ :=
  let sg : ℚ := if startsWith '-' l then -1 else 1
  let l1 := if startsWith '-' l || startsWith '+' l then l.tail else l
  let ip := spanDigits l1
  let fp := if startsWith '.' ip.2 then spanDigits ip.2.tail else ([], ip.2)
  if ip.1 = [] ∧ fp.1 = [] then none
  else
    let mant : ℚ := (digitsVal ip.1 : ℚ) + (digitsVal fp.1 : ℚ) / 10 ^ fp.1.length
    if fp.2 = [] then some (sg * mant)
    else if startsWith 'e' fp.2 || startsWith 'E' fp.2 then
      match parseExp fp.2.tail with
      | some e => some (sg * mant * (10 : ℚ) ^ e)
      | none => none
    else none

/-- `strconv.ParseFloat` over a `String`. -/
def parseFloatQ (s : String) : Option ℚ := parseFloatCore s.data

/-! ### Go `fmt` fixed-point formatting (`%.<prec>f`) -/

/-- Character form of `fmt.Sprintf("%.<prec>f", q)`:  sign of the value,
decimal digits of the integer part, a dot, and exactly `prec` fractional
digits of the correctly rounded magnitude.  (Ties cannot occur for binary
`float64` inputs at the precisions used here, so the tie direction of
`round` is immaterial.)  Only `prec = 8` and `prec = 2` are used. -/
def formatFixedChars (prec : ℕ) (q : ℚ) : List Char :=
  let n : ℕ := (round (|q| * 10 ^ prec)).toNat
  (if q < 0 then ['-'] else []) ++
    natToDigits (n / 10 ^ prec) ++ ('.' :: natToFixed prec (n % 10 ^ prec))

/-- The rational value the formatted string denotes. -/
def formatFixedVal (prec : ℕ) (q : ℚ) : ℚ :=
  (if q < 0 then (-1 : ℚ) else 1) * ((round (|q| * 10 ^ prec)).toNat : ℚ) / 10 ^ prec

/-! ### Go `strings.Fields` -/

/-- Split on individual whitespace characters, keeping empty chunks. -/
def splitWs : List Char → List (List Char)
  | [] => [[]]
  | c :: r =>
    let rem := splitWs r
    if c.isWhitespace then [] :: rem
    else
      match rem with
      | [] => [[c]]
      | t :: ts => (c :: t) :: ts

/-- `strings.Fields`: the maximal whitespace-free chunks of the input. -/
def fieldsLx (l : List Char) : List (List Char) := (splitWs l).filter (fun t => ¬ t = [])

/-- `strings.Fields` over a `String`. -/
def fieldsOf (s : String) : List String := (fieldsLx s.data).map (fun t => String.mk t)

/-- Join tokens with single spaces, as `fmt.Sprintf` does between verbs. -/
def joinSp : List (List Char) → List Char
  | [] => []
  | [t] => t
  | t :: ts => t ++ ' ' :: joinSp ts

/-! ### Transform builders (geometry package) and `ParseTransformOffset` -/

/-- Body of `BuildRotationTransform` after the trigonometric evaluations:
given the sine/cosine values of the three angles, build the Z·Y·X rotation
matrix, and format — nine rotation entries with `%.8f`, three translation
entries with `%.2f`, space-separated. -/
def buildRotationTransformM (sinX cosX sinY cosY sinZ cosZ tx ty tz : ℚ) : String :=
  let m11 := cosY * cosZ
  let m12 := cosY * sinZ
  let m13 := -sinY
  let m21 := sinX * sinY * cosZ - cosX * sinZ
  let m22 := sinX * sinY * sinZ + cosX * cosZ
  let m23 := sinX * cosY
  let m31 := cosX * sinY * cosZ + sinX * sinZ
  let m32 := cosX * sinY * sinZ - sinX * cosZ
  let m33 := cosX * cosY
  String.mk (joinSp
    [formatFixedChars 8 m11, formatFixedChars 8 m12, formatFixedChars 8 m13,
     formatFixedChars 8 m21, formatFixedChars 8 m22, formatFixedChars 8 m23,
     formatFixedChars 8 m31, formatFixedChars 8 m32, formatFixedChars 8 m33,
     formatFixedChars 2 tx, formatFixedChars 2 ty, formatFixedChars 2 tz])

/-- `BuildRotationTransform(0, 0, 0, tx, ty, tz)`:  `math.Sin 0 = 0` and
`math.Cos 0 = 1` exactly in `float64`, so the zero-rotation instance is
exactly represented over `ℚ`. -/
def buildRotationTransform0 (tx ty tz : ℚ) : String :=
  buildRotationTransformM 0 1 0 1 0 1 tx ty tz

/-- `BuildTranslationTransform`: literal identity rotation block, `%.2f`
translation entries. -/
def buildTranslationTransform (tx ty tz : ℚ) : String :=
  String.mk (joinSp
    [['1'], ['0'], ['0'], ['0'], ['1'], ['0'], ['0'], ['0'], ['1'],
     formatFixedChars 2 tx, formatFixedChars 2 ty, formatFixedChars 2 tz])

/-- Number of digits after the decimal point of a formatted number (length
of the suffix following the first `.`). -/
def decimalDigitsOf (l : List Char) : ℕ :=
  (l.dropWhile (fun c => ¬ c = '.')).length - 1

/-- `inspect.ParseTransformOffset`: split into fields, require exactly 12,
parse fields 9–11; `none` models the `ok = false` return. -/
def parseTransformOffset (transform : String) : Option (ℚ × ℚ × ℚ) :=
  let parts := fieldsOf transform
  if parts.length = 12 then
    match parseFloatQ (parts.getD 9 ""), parseFloatQ (parts.getD 10 ""),
        parseFloatQ (parts.getD 11 "") with
    | some x, some y, some z => some (x, y, z)
    | _, _, _ => none
  else none

/-! ### `internal/geometry/bbox.go` -/

/-- A vertex as parsed from the model XML: three coordinate attribute
strings (`geometry.Vertex`). -/
structure SVertex where
  x : String
  y : String
  z : String

/-- A mesh for bounding-box purposes: the decoded vertex list.  (The
`xml.Unmarshal` of `RawContent` is the decoding step; its own failure path
is outside this model.) -/
structure SMesh where
  vertices : List SVertex

/-- The slice of `models.Object` that `CalculateBoundingBox` reads. -/
structure SObject where
  mesh : Option SMesh

/-- `geometry.BoundingBox`. -/
structure BBoxQ where
  minX : ℚ
  minY : ℚ
  minZ : ℚ
  maxX : ℚ
  maxY : ℚ
  maxZ : ℚ
deriving DecidableEq

/-- One iteration of the `CalculateBoundingBox` vertex loop: parse the three
coordinates, `continue` (keep the accumulator) if any fails. -/
def bboxStep (b : BBoxQ) (v : SVertex) : BBoxQ :=
  match parseFloatQ v.x, parseFloatQ v.y, parseFloatQ v.z with
  | some x, some y, some z =>
    ⟨min b.minX x, min b.minY y, min b.minZ z, max b.maxX x, max b.maxY y, max b.maxZ z⟩
  | _, _, _ => b

/-- `geometry.CalculateBoundingBox`: error on missing mesh or empty vertex
list; the first vertex's coordinates must parse (they seed the accumulator);
the loop then scans all vertices, skipping any with an unparsable
coordinate. -/
def calculateBoundingBox (obj : SObject) : Except String BBoxQ :=
  match obj.mesh with
  | none => .error "object has no mesh"
  | some mesh =>
    match mesh.vertices with
    | [] => .error "mesh has no vertices"
    | v0 :: _ =>
      match parseFloatQ v0.x, parseFloatQ v0.y, parseFloatQ v0.z with
      | none, _, _ => .error "invalid vertex X coordinate"
      | some _, none, _ => .error "invalid vertex Y coordinate"
      | some _, some _, none => .error "invalid vertex Z coordinate"
      | some x0, some y0, some z0 =>
        .ok (mesh.vertices.foldl bboxStep ⟨x0, y0, z0, x0, y0, z0⟩)

/-- The vertices whose three coordinates all parse, with their values — the
ones the `CalculateBoundingBox` loop does not skip. -/
def parsedVertices (l : List SVertex) : List (ℚ × ℚ × ℚ) :=
  l.filterMap (fun v =>
    match parseFloatQ v.x, parseFloatQ v.y, parseFloatQ v.z with
    | some x, some y, some z => some (x, y, z)
    | _, _, _ => none)

/-- Maximum of a rational list, `none` when empty. -/
def listMaxQ : List ℚ → Option ℚ
  | [] => none
  | x :: xs => some (xs.foldl max x)

/-- Componentwise min/max update of a bounding box by a parsed vertex. -/
def bboxMerge (b : BBoxQ) (t : ℚ × ℚ × ℚ) : BBoxQ :=
  ⟨min b.minX t.1, min b.minY t.2.1, min b.minZ t.2.2,
   max b.maxX t.1, max b.maxY t.2.1, max b.maxZ t.2.2⟩

/-- `fmt.Sscanf(transform, "%f "×12)`: the first twelve whitespace-separated
tokens must each parse as a float; surplus input is ignored. -/
def sscanf12 (s : String) : Option (List ℚ) :=
  let toks := fieldsLx s.data
  if toks.length < 12 then none
  else (toks.take 12).mapM parseFloatCore

/-- `geometry.parseTransform`: translation components of a transform string,
`(0, 0, 0)` whenever the `Sscanf` fails. -/
def parseTransform (s : String) : ℚ × ℚ × ℚ :=
  match sscanf12 s with
  | some ps => (ps.getD 9 0, ps.getD 10 0, ps.getD 11 0)
  | none => (0, 0, 0)

/-- Loop of `CalculateCombinedBoundingBox`: skip objects whose bounding box
fails, translate the rest by the parsed transform offset, accumulate
min/max. -/
def combineBBoxLoop : List (SObject × String) → Option BBoxQ → Option BBoxQ
  | [], acc => acc
  | (obj, tr) :: rest, acc =>
    match calculateBoundingBox obj with
    | .error _ => combineBBoxLoop rest acc
    | .ok bb =>
      let d := parseTransform tr
      let t : BBoxQ := ⟨bb.minX + d.1, bb.minY + d.2.1, bb.minZ + d.2.2,
                        bb.maxX + d.1, bb.maxY + d.2.1, bb.maxZ + d.2.2⟩
      match acc with
      | none => combineBBoxLoop rest (some t)
      | some c => combineBBoxLoop rest (some ⟨min c.minX t.minX, min c.minY t.minY,
          min c.minZ t.minZ, max c.maxX t.maxX, max c.maxY t.maxY, max c.maxZ t.maxZ⟩)

/-- `geometry.CalculateCombinedBoundingBox`. -/
def calculateCombinedBoundingBox (objects : List SObject) (transforms : List String) :
    Except String BBoxQ :=
  if objects.length = 0 then .error "no objects provided"
  else if ¬ transforms.length = objects.length then
    .error "number of transforms must match number of objects"
  else
    match combineBBoxLoop (objects.zip transforms) none with
    | some bb => .ok bb
    | none => .error "no valid objects found"

/-- Loop of `CalculateZOffsetWithTransforms` (`minZ` accumulator and
`foundAny` flag exactly as in the source). -/
def zOffLoop : List (SObject × String) → ℚ → Bool → ℚ
  | [], minZ, _ => -minZ
  | (obj, tr) :: rest, minZ, foundAny =>
    match calculateBoundingBox obj with
    | .error _ => zOffLoop rest minZ foundAny
    | .ok bb =>
      let az := bb.minZ + (parseTransform tr).2.2
      if foundAny = false ∨ az < minZ then zOffLoop rest az true
      else zOffLoop rest minZ foundAny

/-- `geometry.CalculateZOffsetWithTransforms`. -/
def calculateZOffsetWithTransforms (objects : List SObject) (transforms : List String) : ℚ :=
  zOffLoop (objects.zip transforms) 0 false

/-! ### `internal/geometry/packing.go` -/

/-- `geometry.Rectangle`. -/
structure Rectangle where
  x : ℚ
  y : ℚ
  width : ℚ
  height : ℚ
  id : ℕ
deriving DecidableEq

/-- `geometry.PackingResult`. -/
structure PackingResult where
  x : ℚ
  y : ℚ
  id : ℕ
  fits : Bool
  width : ℚ
  height : ℚ
deriving DecidableEq

/-- Shelf-placement loop of `PackOptimal` over `(currentX, currentY,
shelfHeight)`: start a new shelf when the object would overflow the build
plate width (and the shelf is not empty), place, then advance `currentX`
and raise the shelf height. -/
def packOptimalLoop (margin maxW : ℚ) : ℚ → ℚ → ℚ → List Rectangle → List PackingResult
  | _, _, _, [] => []
  | cx, cy, sh, obj :: rest =>
    let s : ℚ × ℚ × ℚ :=
      if 0 < cx ∧ maxW < cx + obj.width then (0, cy + sh + margin, 0) else (cx, cy, sh)
    ⟨s.1, s.2.1, obj.id, true, obj.width, obj.height⟩ ::
      packOptimalLoop margin maxW (s.1 + obj.width + margin) s.2.1
        (if s.2.2 < obj.height then obj.height else s.2.2) rest

/-- The sort of `PackOptimal`: `sort.Slice` with `less i j ↔ hᵢ > hⱼ`
(height descending only). -/
def sortByHeightDesc (objs : List Rectangle) : List Rectangle :=
  List.insertionSort (fun a b => b.height ≤ a.height) objs

/-- `Packer.PackOptimal` (the "default" algorithm): sort by height
descending, then shelf-place against the build-plate width. -/
def packOptimal (margin : ℚ) (objs : List Rectangle) (maxBuildPlateWidth : ℚ) :
    List PackingResult :=
  if objs.length = 0 then []
  else packOptimalLoop margin maxBuildPlateWidth 0 0 0 (sortByHeightDesc objs)

/-- The shelf algorithm as claim C3 words it (sort key area descending,
then height descending).  This follows the spec sentence, not the source,
and exists to be compared with `packOptimal`. -/
def packOptimalClaimed (margin : ℚ) (objs : List Rectangle) (maxW : ℚ) : List PackingResult :=
  if objs.length = 0 then []
  else
    packOptimalLoop margin maxW 0 0 0
      (List.insertionSort (fun a b =>
        b.width * b.height < a.width * a.height ∨
          (a.width * a.height = b.width * b.height ∧ b.height ≤ a.height)) objs)

/-- A free space of the guillotine packer. -/
structure FreeSpace where
  x : ℚ
  y : ℚ
  width : ℚ
  height : ℚ
deriving DecidableEq

/-- The sort of `PackCompact`: height descending, ties by width
descending. -/
def sortCompact (objs : List Rectangle) : List Rectangle :=
  List.insertionSort
    (fun a b => b.height < a.height ∨ (a.height = b.height ∧ b.width ≤ a.width)) objs

/-- Free-space ordering of `PackCompact`: `y` ascending, ties by `x`
ascending. -/
def sortSpaces (l : List FreeSpace) : List FreeSpace :=
  List.insertionSort (fun a b => a.y < b.y ∨ (a.y = b.y ∧ a.x ≤ b.x)) l

/-- First free space the object (plus margin) fits into, returned together
with the spaces before and after it (`spaces[:idx]` / `spaces[idx+1:]`). -/
def findFitSplit (margin : ℚ) (obj : Rectangle) :
    List FreeSpace → Option (List FreeSpace × FreeSpace × List FreeSpace)
  | [] => none
  | s :: rest =>
    if obj.width + margin ≤ s.width ∧ obj.height + margin ≤ s.height then some ([], s, rest)
    else (findFitSplit margin obj rest).map (fun pfs => (s :: pfs.1, pfs.2.1, pfs.2.2))

/-- Placement loop of `PackCompact` over `(spaces, currentMaxX,
currentMaxY)`.  Fitting case: place at the space's corner, guillotine-split
it into right and bottom remainders, re-insert and re-sort.  Fallback case:
place at `(0, currentMaxY + margin)`, drop free spaces overlapping the new
footprint, and add the remainder to its right. -/
def packCompactLoop (margin optimalWidth : ℚ) :
    List FreeSpace → ℚ → ℚ → List Rectangle → List PackingResult
  | _, _, _, [] => []
  | spaces, cmx, cmy, obj :: rest =>
    match findFitSplit margin obj spaces with
    | some (pre, sp, suf) =>
      let cmx2 := if cmx < sp.x + obj.width then sp.x + obj.width else cmx
      let cmy2 := if cmy < sp.y + obj.height then sp.y + obj.height else cmy
      let owm := obj.width + margin
      let ohm := obj.height + margin
      let newSpaces :=
        (if owm < sp.width then [FreeSpace.mk (sp.x + owm) sp.y (sp.width - owm) sp.height]
         else []) ++
        (if ohm < sp.height then [FreeSpace.mk sp.x (sp.y + ohm) owm (sp.height - ohm)]
         else [])
      ⟨sp.x, sp.y, obj.id, true, obj.width, obj.height⟩ ::
        packCompactLoop margin optimalWidth (sortSpaces (pre ++ suf ++ newSpaces)) cmx2 cmy2 rest
    | none =>
      let fy := cmy + margin
      let owm := obj.width + margin
      let ohm := obj.height + margin
      let kept := spaces.filter (fun s =>
        decide (owm ≤ s.x ∨ s.x + s.width ≤ 0 ∨ fy + ohm ≤ s.y ∨ s.y + s.height ≤ fy))
      let spaces2 :=
        kept ++ (if owm < optimalWidth then [FreeSpace.mk owm fy (optimalWidth - owm) ohm]
                 else [])
      ⟨0, fy, obj.id, true, obj.width, obj.height⟩ ::
        packCompactLoop margin optimalWidth spaces2
          (if cmx < obj.width then obj.width else cmx) (fy + obj.height) rest

/-- `Packer.PackCompact` (the "compact" algorithm).  `math.Sqrt` is a
Go-stdlib floating-point routine with no exact rational counterpart; it is
taken as the parameter `sqrtModel`, and every theorem below holds for all
choices of `sqrtModel`, in particular the true square root. -/
def packCompact (sqrtModel : ℚ → ℚ) (margin : ℚ) (objs : List Rectangle) :
    List PackingResult :=
  if objs.length = 0 then []
  else
    let sorted := sortCompact objs
    let maxObjWidth := sorted.foldl (fun acc o => if acc < o.width then o.width else acc) 0
    let totalArea :=
      sorted.foldl (fun acc o => acc + (o.width + margin) * (o.height + margin)) 0
    let ow0 := sqrtModel (totalArea * (12 / 10))
    let ow1 := if ow0 < maxObjWidth + margin then maxObjWidth + margin else ow0
    let optimalWidth := if ow1 < 100 then 100 else ow1
    packCompactLoop margin optimalWidth [FreeSpace.mk 0 0 optimalWidth 10000] 0 0 sorted

/-! ### The merger (`combineWithGroupsAndDistanceInternal`) -/

/-- A vertex of an already-rotated mesh, numerically.  Post-rotation vertex
strings are freshly formatted floats, so parsing always succeeds and the
numeric view is faithful. -/
structure VertexQ where
  x : ℚ
  y : ℚ
  z : ℚ
deriving DecidableEq

/-- A mesh, numerically. -/
structure MeshQ where
  vertices : List VertexQ
deriving DecidableEq

/-- `models.ScadFile`: one part's placement configuration. -/
structure ScadFile where
  name : String
  filamentSlot : ℤ
  rotX : ℚ
  rotY : ℚ
  rotZ : ℚ
  posX : ℚ
  posY : ℚ
  posZ : ℚ
deriving DecidableEq

/-- One source package as the merger reads it: its single mesh object and
the parallel `ScadFile` entry.  (`CombineWithObjectGroups` passes one
temp file per flattened part, and each rendered part file holds exactly one
mesh object, so `nextID` advances in lockstep with the file index.) -/
structure InputPart where
  mesh : MeshQ
  scad : ScadFile
deriving DecidableEq

/-- The slice of `models.ObjectGroup` the merger reads: name and
normalize-to-ground flag. -/
structure GroupCfg where
  name : String
  normalizePosition : Bool
deriving DecidableEq

/-- `models.Component` with a numeric object ID. -/
structure ComponentQ where
  objectID : ℕ
  transform : String
deriving DecidableEq

/-- A merged-model object: mesh objects carry `some` mesh and a PID;
synthetic parents carry components only. -/
structure MergeObject where
  id : ℕ
  name : String
  pid : Option ℤ
  mesh : Option MeshQ
  components : List ComponentQ
deriving DecidableEq

/-- `models.Item` (a build item). -/
structure Item where
  objectID : ℕ
  transform : String
  printable : String
deriving DecidableEq

/-- `models.ObjectGroup` as emitted into `settingsGroups`. -/
structure GroupOut where
  id : ℕ
  name : String
  parts : List ScadFile
  normalizePosition : Bool
deriving DecidableEq

/-- `models.PackingAlgorithm`. -/
inductive PackingAlgorithm where
  | default
  | compact
deriving DecidableEq

/-- Minimum Z coordinate over a mesh's vertices (`0` for an empty mesh,
which the merger never feeds in). -/
def meshMinZ (m : MeshQ) : ℚ :=
  match m.vertices with
  | [] => 0
  | v :: vs => vs.foldl (fun acc w => min acc w.z) v.z

/-- Modelled from the spec: `geometry.RotateMeshVertices` is not under
`src/`.  Per §4.1 it mutates the vertices in place and returns the
post-rotation minimum Z.  The embedding takes each part's mesh as its
post-rotation geometry (rotation is a transcendental map with no exact
rational counterpart, and no claim depends on the rotated values), so the
modelled rotation is the identity paired with the minimum-Z computation. -/
def rotateMeshVertices (m : MeshQ) : MeshQ × ℚ := (m, meshMinZ m)

/-- Modelled from the spec: `geometry.ApplyZOffset` is not under `src/`.
Per §4.1 it translates all vertices by a Z delta. -/
def applyZOffsetQ (off : ℚ) (m : MeshQ) : MeshQ :=
  ⟨m.vertices.map (fun v => ⟨v.x, v.y, v.z + off⟩)⟩

/-- Filament-slot resolution at ingestion: `0` becomes `(i % 4) + 1` for
file index `i`; explicit slots pass through. -/
def resolveSlot (slot : ℤ) (i : ℕ) : ℤ := if slot = 0 then ((i : ℤ) % 4) + 1 else slot

/-- Ingestion loop: the `i`-th source file's object gets ID `i + 1`, the
part's name, the resolved PID, and its (post-rotation) mesh. -/
def ingest : ℕ → List InputPart → List MergeObject
  | _, [] => []
  | i, p :: ps =>
    ⟨i + 1, p.scad.name, some (resolveSlot p.scad.filamentSlot i),
      some (rotateMeshVertices p.mesh).1, []⟩ :: ingest (i + 1) ps

/-- Group (base object) name: the part name truncated at the first `/`. -/
def baseName (s : String) : String := String.mk (s.data.takeWhile (fun c => ¬ c = '/'))

/-- First-occurrence order of group names (`objectOrder` in the source). -/
def objectOrderOf (inputs : List InputPart) : List String :=
  inputs.foldl (fun acc p =>
    let n := baseName p.scad.name
    if n ∈ acc then acc else acc ++ [n]) []

/-- The members of a group, in ingestion order. -/
def groupInputs (inputs : List InputPart) (gname : String) : List InputPart :=
  inputs.filter (fun p => baseName p.scad.name = gname)

/-- The Go `meshIDs` of a group: 1-based ingestion indices of its
members. -/
def memberIndices (inputs : List InputPart) (gname : String) : List ℕ :=
  ((inputs.enum).filter (fun p => baseName p.2.scad.name = gname)).map (fun p => p.1 + 1)

/-- Rational shadow of `CalculateBoundingBox` for post-rotation meshes:
every vertex parses, so the only error path left is the empty vertex
list. -/
def calcMeshBBox (m : MeshQ) : Option BBoxQ :=
  match m.vertices with
  | [] => none
  | v :: vs =>
    some (vs.foldl (fun b w =>
      ⟨min b.minX w.x, min b.minY w.y, min b.minZ w.z,
       max b.maxX w.x, max b.maxY w.y, max b.maxZ w.z⟩) ⟨v.x, v.y, v.z, v.x, v.y, v.z⟩)

/-- Multi-part footprint union: per-member bounding box shifted by the
member's X/Y position offsets, X/Y-combined (the source leaves the Z slots
of the accumulator untouched); members whose bounding box fails are
skipped. -/
def multiBBox (members : List InputPart) : Option BBoxQ :=
  members.foldl (fun acc p =>
    match calcMeshBBox p.mesh with
    | none => acc
    | some bb0 =>
      let bb : BBoxQ := ⟨bb0.minX + p.scad.posX, bb0.minY + p.scad.posY, bb0.minZ,
                         bb0.maxX + p.scad.posX, bb0.maxY + p.scad.posY, bb0.maxZ⟩
      match acc with
      | none => some bb
      | some c => some ⟨min c.minX bb.minX, min c.minY bb.minY, c.minZ,
          max c.maxX bb.maxX, max c.maxY bb.maxY, c.maxZ⟩) none

/-- A group's packing footprint `(width, height, bboxOffsetX, bboxOffsetY)`:
single member — its own bounding box with fallback 50×50; several (or, in
Go's zero-value case, zero) members — the union with fallback 100×100. -/
def footprintOf (members : List InputPart) : ℚ × ℚ × ℚ × ℚ :=
  match members with
  | [m] =>
    match calcMeshBBox m.mesh with
    | some bb => (bb.maxX - bb.minX, bb.maxY - bb.minY, -bb.minX, -bb.minY)
    | none => (50, 50, 0, 0)
  | _ =>
    match multiBBox members with
    | some bb => (bb.maxX - bb.minX, bb.maxY - bb.minY, -bb.minX, -bb.minY)
    | none => (100, 100, 0, 0)

/-- `objectInfoMap` entry (the `groupObjects` field, used only by dead code
in the source, is omitted). -/
structure GroupInfo where
  meshIDs : List ℕ
  objectName : String
  scadFiles : List ScadFile
  bboxOffsetX : ℚ
  bboxOffsetY : ℚ
deriving DecidableEq

/-- `objectInfoMap` entry for one group name. -/
def groupInfoOf (inputs : List InputPart) (gname : String) : GroupInfo :=
  let fp := footprintOf (groupInputs inputs gname)
  ⟨memberIndices inputs gname, gname, (groupInputs inputs gname).map (fun p => p.scad),
    fp.2.2.1, fp.2.2.2⟩

/-- All group infos, in `objectOrder`; the `packingID` of a group is its
position in this list. -/
def groupInfos (inputs : List InputPart) : List GroupInfo :=
  (objectOrderOf inputs).map (groupInfoOf inputs)

/-- The rectangles handed to the packer (zero positions, as in the
source). -/
def packRects (inputs : List InputPart) : List Rectangle :=
  ((objectOrderOf inputs).map (fun g => footprintOf (groupInputs inputs g))).enum.map
    (fun p => ⟨0, 0, p.2.1, p.2.2.1, p.1⟩)

/-- Normalize-flag lookup: first `ObjectGroup` with the group's name, default
`true`.  Go's `nil` group slice behaves like the empty list here. -/
def effectiveNormalize (ogs : List GroupCfg) (gname : String) : Bool :=
  ((ogs.find? (fun og => og.name = gname)).map (fun og => og.normalizePosition)).getD true

/-- The group's `meshMinZ[meshID-1] + PositionZ` values. -/
def memberEffMinZs (inputs : List InputPart) (gname : String) : List ℚ :=
  (groupInputs inputs gname).map (fun p => (rotateMeshVertices p.mesh).2 + p.scad.posZ)

/-- Minimum of a rational list; `none` models the Go loop whose
`math.MaxFloat64` sentinel survives an empty range. -/
def listMinQ : List ℚ → Option ℚ
  | [] => none
  | x :: xs => some (xs.foldl min x)

/-- The Z shift applied to a group's members: `-groupMinZ` for a
normalize-enabled group whose minimum is neither the sentinel nor already
zero, else no shift. -/
def zOffsetFor (inputs : List InputPart) (ogs : List GroupCfg) (gname : String) : ℚ :=
  if effectiveNormalize ogs gname then
    match listMinQ (memberEffMinZs inputs gname) with
    | some m => if m = 0 then 0 else -m
    | none => 0
  else 0

/-- Ground normalization of one mesh object by its own group's offset. -/
def normalizeMeshObject (inputs : List InputPart) (ogs : List GroupCfg) (o : MergeObject) :
    MergeObject :=
  { o with mesh := o.mesh.map (applyZOffsetQ (zOffsetFor inputs ogs (baseName o.name))) }

/-- Ground normalization pass.  The source iterates the groups and applies
`ApplyZOffset` once to each member; base names partition the mesh objects,
so mapping each object by its own group's offset is the same update. -/
def normalizeAll (inputs : List InputPart) (ogs : List GroupCfg)
    (objs : List MergeObject) : List MergeObject :=
  objs.map (normalizeMeshObject inputs ogs)

/-- Zero value of `ScadFile` (Go zero struct). -/
def defaultScad : ScadFile := ⟨"", 0, 0, 0, 0, 0, 0, 0⟩

/-- Zero value of `GroupInfo`: what `objectInfoMap[result.ID]` yields for an
absent key. -/
def defaultInfo : GroupInfo := ⟨[], "", [], 0, 0⟩

/-- `objectInfoMap` lookup by packing ID. -/
def infoAt (infos : List GroupInfo) (k : ℕ) : GroupInfo := infos.getD k defaultInfo

/-- Emission loop over the packing results, carrying `nextID`.  A single-part
group yields a build item referencing the mesh directly (translation plus
the part's position offsets and corner alignment; `zOffset` is literally `0`
in the source).  Any other group yields a synthetic parent whose components
carry the members' position offsets, and a build item referencing it. -/
def emitLoop (infos : List GroupInfo) (ogs : List GroupCfg) :
    ℕ → List PackingResult → List MergeObject × List Item × List GroupOut
  | _, [] => ([], [], [])
  | nid, r :: rs =>
    let info := infoAt infos r.id
    let normalizePosition := effectiveNormalize ogs info.objectName
    match info.meshIDs with
    | [m] =>
      let s := info.scadFiles.headD defaultScad
      let item : Item := ⟨m,
        buildTranslationTransform (r.x + s.posX + info.bboxOffsetX)
          (r.y + s.posY + info.bboxOffsetY) s.posZ, "1"⟩
      let g : GroupOut := ⟨m, info.objectName, info.scadFiles, normalizePosition⟩
      let rest := emitLoop infos ogs nid rs
      (rest.1, item :: rest.2.1, g :: rest.2.2)
    | _ =>
      let comps := (info.meshIDs.zip info.scadFiles).map (fun p =>
        ComponentQ.mk p.1 (buildTranslationTransform p.2.posX p.2.posY p.2.posZ))
      let parent : MergeObject := ⟨nid, info.objectName, none, none, comps⟩
      let item : Item := ⟨nid,
        buildTranslationTransform (r.x + info.bboxOffsetX) (r.y + info.bboxOffsetY) 0, "1"⟩
      let g : GroupOut := ⟨nid, info.objectName, info.scadFiles, normalizePosition⟩
      let rest := emitLoop infos ogs (nid + 1) rs
      (parent :: rest.1, item :: rest.2.1, g :: rest.2.2)

/-- The merged model: `Resources.Objects`, `Build.Items`, and the
`settingsGroups` later handed to `WriteModelSettings`. -/
structure CombinedModel where
  objects : List MergeObject
  items : List Item
  settingsGroups : List GroupOut
deriving DecidableEq

/-- `Combiner.combineWithGroupsAndDistanceInternal`: ingest and renumber,
group, compute footprints, ground-normalize per group, pack (256 mm build
plate width for the default algorithm), then emit objects, build items and
settings groups.  `nextID` for parents starts at `inputs.length + 1`. -/
def combineInternal (sqrtModel : ℚ → ℚ) (inputs : List InputPart) (ogs : List GroupCfg)
    (margin : ℚ) (alg : PackingAlgorithm) : CombinedModel :=
  let meshObjs := normalizeAll inputs ogs (ingest 0 inputs)
  let results :=
    match alg with
    | .compact => packCompact sqrtModel margin (packRects inputs)
    | .default => packOptimal margin (packRects inputs) 256
  let ep := emitLoop (groupInfos inputs) ogs (inputs.length + 1) results
  ⟨meshObjs ++ ep.1, ep.2.1, ep.2.2⟩

/-- The mesh objects of a merged model (synthetic parents carry no mesh). -/
def mergedMeshObjects (m : CombinedModel) : List MergeObject :=
  m.objects.filter (fun o => o.mesh.isSome)

/-- After the merge, the per-part `minZ + PositionZ` values of a group's
members: merged mesh objects paired with their source parts, restricted to
the group. -/
def postMergeEffMinZs (m : CombinedModel) (inputs : List InputPart) (gname : String) :
    List ℚ :=
  (((mergedMeshObjects m).zip inputs).filter
    (fun p => baseName p.2.scad.name = gname)).map
    (fun p => meshMinZ (p.1.mesh.getD ⟨[]⟩) + p.2.scad.posZ)

/-! ### `WriteModelSettings` (part_008) -/

/-- `models.SettingsMetadata`: key/value, or a bare face-count entry. -/
structure SMeta where
  key : String
  value : String
  faceCount : ℤ
deriving DecidableEq

/-- `models.Part` of the settings document. -/
structure SettingsPart where
  id : ℕ
  subtype : String
  metadata : List SMeta
  faceCount : ℤ
deriving DecidableEq

/-- `models.SettingsObject`. -/
structure SettingsObject where
  id : ℕ
  metadata : List SMeta
  parts : List SettingsPart
deriving DecidableEq

/-- `models.ModelInstance`. -/
structure ModelInstance where
  metadata : List SMeta
deriving DecidableEq

/-- `models.AssembleItem`. -/
structure AssembleItem where
  objectID : ℕ
  instanceID : String
  transform : String
  offset : String
deriving DecidableEq

/-- `models.ModelSettings` (plate block flattened to its metadata and
instances). -/
structure ModelSettings where
  objects : List SettingsObject
  plateMetadata : List SMeta
  modelInstances : List ModelInstance
  assembleItems : List AssembleItem
deriving DecidableEq

/-- Settings-side filament resolution: slot `0` becomes
`((partID - 1) % 4) + 1` for the *global settings part counter* `partID`. -/
def settingsSlot (cfg : ℤ) (partID : ℕ) : ℤ :=
  if cfg = 0 then (((partID : ℤ) - 1) % 4) + 1 else cfg

/-- Inner loop of `WriteModelSettings` over one group's parts, carrying the
global `partID` (returned for the next group) and the per-group
`volumeIndex`.  The `extruder` metadata entry is appended only when the
resolved slot differs from 1. -/
def buildPartsLoop (sourceObjectID : ℕ) : ℕ → ℕ → List ScadFile → List SettingsPart × ℕ
  | partID, _, [] => ([], partID)
  | partID, volumeIndex, sf :: rest =>
    let slot := settingsSlot sf.filamentSlot partID
    let md : List SMeta :=
      [⟨"name", sf.name, 0⟩, ⟨"matrix", "1 0 0 0 0 1 0 0 0 0 1 0 0 0 0 1", 0⟩,
       ⟨"source_file", "combined.3mf", 0⟩,
       ⟨"source_object_id", Nat.repr sourceObjectID, 0⟩,
       ⟨"source_volume_id", Nat.repr volumeIndex, 0⟩]
    let md2 := if ¬ slot = 1 then md ++ [⟨"extruder", toString slot, 0⟩] else md
    let p : SettingsPart := ⟨partID, "normal_part", md2, 12⟩
    let rest2 := buildPartsLoop sourceObjectID (partID + 1) (volumeIndex + 1) rest
    (p :: rest2.1, rest2.2)

/-- Outer loop of `WriteModelSettings` over the groups, carrying the global
`partID` and `sourceObjectID` counters.  Each part contributes the
placeholder face count 12, so a group's total is `12 * parts.length`. -/
def buildObjectsLoop : ℕ → ℕ → List GroupOut → List SettingsObject × List ModelInstance
  | _, _, [] => ([], [])
  | partID, sourceObjectID, g :: gs =>
    let pp := buildPartsLoop sourceObjectID partID 0 g.parts
    let so : SettingsObject := ⟨g.id,
      [⟨"name", g.name, 0⟩, ⟨"extruder", "1", 0⟩, ⟨"", "", 12 * g.parts.length⟩], pp.1⟩
    let mi : ModelInstance := ⟨[⟨"object_id", Nat.repr g.id, 0⟩, ⟨"instance_id", "0", 0⟩,
      ⟨"identify_id", Nat.repr g.id, 0⟩]⟩
    let rest := buildObjectsLoop pp.2 (sourceObjectID + 1) gs
    (so :: rest.1, mi :: rest.2)

/-- The settings groups' parts flattened in document order (the order the
global `partID` counter enumerates them). -/
def flatPartsOf (groups : List GroupOut) : List ScadFile :=
  (groups.map (fun g : GroupOut => g.parts)).flatten

/-- The part entries of a settings document, flattened in document order. -/
def settingsParts (ms : ModelSettings) : List SettingsPart :=
  (ms.objects.map (fun o => o.parts)).flatten

/-- `threemf.WriteModelSettings`, up to XML serialization: the
`model_settings.config` document that gets marshalled. -/
def writeModelSettings (objectGroups : List GroupOut) (buildItems : List Item) :
    ModelSettings :=
  let om := buildObjectsLoop 1 0 objectGroups
  ⟨om.1,
   [⟨"plater_id", "1", 0⟩, ⟨"plater_name", "", 0⟩, ⟨"locked", "false", 0⟩,
    ⟨"filament_map_mode", "Auto For Flush", 0⟩],
   om.2,
   buildItems.map (fun it => ⟨it.objectID, "0", it.transform, "0 0 0"⟩)⟩

/-- Concrete scenario: two slot-0 single-part groups "a" and "b" whose
footprint heights (1 and 5) make the height-descending packer emit "b"
before "a", so the settings document enumerates the parts in the opposite
of ingestion order. -/
def reorderInputs : List InputPart :=
  [⟨⟨[⟨0, 0, 0⟩, ⟨1, 1, 0⟩]⟩, ⟨"a", 0, 0, 0, 0, 0, 0, 0⟩⟩,
   ⟨⟨[⟨0, 0, 0⟩, ⟨1, 5, 0⟩]⟩, ⟨"b", 0, 0, 0, 0, 0, 0, 0⟩⟩]

/-- The settings document produced for `reorderInputs` by the default
pipeline. -/
def reorderSettings : ModelSettings :=
  writeModelSettings
    (combineInternal (fun _ => 0) reorderInputs [] 10 PackingAlgorithm.default).settingsGroups
    (combineInternal (fun _ => 0) reorderInputs [] 10 PackingAlgorithm.default).items

/-! ## Theorems -/

/-! ### The packers are total: one placement per rectangle (C5) -/

lemma packOptimalLoop_length (m W : ℚ) :
    ∀ (l : List Rectangle) (cx cy sh : ℚ), (packOptimalLoop m W cx cy sh l).length = l.length := by
  intro l
  induction l with
  | nil => intro cx cy sh; simp [packOptimalLoop]
  | cons r rest ih => intro cx cy sh; simp [packOptimalLoop, ih]

lemma packOptimalLoop_ids (m W : ℚ) :
    ∀ (l : List Rectangle) (cx cy sh : ℚ),
      (packOptimalLoop m W cx cy sh l).map (fun r => r.id) = l.map (fun r => r.id) := by
  intro l
  induction l with
  | nil => intro cx cy sh; simp [packOptimalLoop]
  | cons r rest ih => intro cx cy sh; simp [packOptimalLoop, ih]

lemma packOptimalLoop_fits (m W : ℚ) :
    ∀ (l : List Rectangle) (cx cy sh : ℚ) (p : PackingResult),
      p ∈ packOptimalLoop m W cx cy sh l → p.fits = true := by
  intro l
  induction l with
  | nil => intro cx cy sh p hp; simp [packOptimalLoop] at hp
  | cons r rest ih =>
    intro cx cy sh p hp
    simp only [packOptimalLoop, List.mem_cons] at hp
    rcases hp with h | h
    · subst h; rfl
    · exact ih _ _ _ _ h

lemma packCompactLoop_length (m W : ℚ) :
    ∀ (l : List Rectangle) (spaces : List FreeSpace) (cmx cmy : ℚ),
      (packCompactLoop m W spaces cmx cmy l).length = l.length := by
  intro l
  induction l with
  | nil => intro spaces cmx cmy; simp [packCompactLoop]
  | cons r rest ih =>
    intro spaces cmx cmy
    rw [packCompactLoop]
    rcases hfind : findFitSplit m r spaces with _ | ⟨pre, sp, suf⟩
    · simp [ih]
    · simp [ih]

lemma packCompactLoop_ids (m W : ℚ) :
    ∀ (l : List Rectangle) (spaces : List FreeSpace) (cmx cmy : ℚ),
      (packCompactLoop m W spaces cmx cmy l).map (fun r => r.id) = l.map (fun r => r.id) := by
  intro l
  induction l with
  | nil => intro spaces cmx cmy; simp [packCompactLoop]
  | cons r rest ih =>
    intro spaces cmx cmy
    rw [packCompactLoop]
    rcases hfind : findFitSplit m r spaces with _ | ⟨pre, sp, suf⟩
    · simp [ih]
    · simp [ih]

lemma packCompactLoop_fits (m W : ℚ) :
    ∀ (l : List Rectangle) (spaces : List FreeSpace) (cmx cmy : ℚ) (p : PackingResult),
      p ∈ packCompactLoop m W spaces cmx cmy l → p.fits = true := by
  intro l
  induction l with
  | nil => intro spaces cmx cmy p hp; simp [packCompactLoop] at hp
  | cons r rest ih =>
    intro spaces cmx cmy p hp
    rw [packCompactLoop] at hp
    rcases hfind : findFitSplit m r spaces with _ | ⟨pre, sp, suf⟩ <;> rw [hfind] at hp <;>
      simp only [List.mem_cons] at hp <;> rcases hp with h | h
    · subst h; rfl
    · exact ih _ _ _ _ h
    · subst h; rfl
    · exact ih _ _ _ _ h

lemma sortByHeightDesc_perm (objs : List Rectangle) : (sortByHeightDesc objs).Perm objs :=
  List.perm_insertionSort _ objs

lemma sortCompact_perm (objs : List Rectangle) : (sortCompact objs).Perm objs :=
  List.perm_insertionSort _ objs

/-- C5: for every list of rectangles, each packing algorithm — `PackOptimal`
("default") and `PackCompact` ("compact") — returns exactly one (x, y)
placement per input rectangle (same length, and the result IDs are a
permutation of the input IDs) and never rejects an input: every returned
`PackingResult` has `Fits = true`. -/
theorem packers_one_placement_per_rectangle (sqrtModel : ℚ → ℚ) (margin maxW : ℚ)
    (objs : List Rectangle) :
    (packOptimal margin objs maxW).length = objs.length
    ∧ ((packOptimal margin objs maxW).map (fun r => r.id)).Perm (objs.map (fun r => r.id))
    ∧ (∀ p ∈ packOptimal margin objs maxW, p.fits = true)
    ∧ (packCompact sqrtModel margin objs).length = objs.length
    ∧ ((packCompact sqrtModel margin objs).map (fun r => r.id)).Perm (objs.map (fun r => r.id))
    ∧ (∀ p ∈ packCompact sqrtModel margin objs, p.fits = true) := by
  unfold packOptimal packCompact
  by_cases h : objs.length = 0
  · rcases List.length_eq_zero.mp h with rfl
    simp
  · simp only [h, if_false]
    refine ⟨?_, ?_, ?_, ?_, ?_, ?_⟩
    · rw [packOptimalLoop_length]
      exact (sortByHeightDesc_perm objs).length_eq
    · rw [packOptimalLoop_ids]
      exact (sortByHeightDesc_perm objs).map _
    · exact fun p hp => packOptimalLoop_fits _ _ _ _ _ _ _ hp
    · rw [packCompactLoop_length]
      exact (sortCompact_perm objs).length_eq
    · rw [packCompactLoop_ids]
      exact (sortCompact_perm objs).map _
    · exact fun p hp => packCompactLoop_fits _ _ _ _ _ _ _ hp

/-! ### The "default" sort key (C3) -/

/-- C3 counterexample: on two rectangles where the area order (10×1 before
2×3) disagrees with the height order (2×3 before 10×1), `PackOptimal`
produces a different placement than the claimed sort-by-(area, height)
algorithm: the code places the 2×3 rectangle first. -/
theorem packOptimal_sort_key_counterexample :
    packOptimal 10 [⟨0, 0, 10, 1, 0⟩, ⟨0, 0, 2, 3, 1⟩] 256 ≠
      packOptimalClaimed 10 [⟨0, 0, 10, 1, 0⟩, ⟨0, 0, 2, 3, 1⟩] 256 := by
  norm_num [packOptimal, packOptimalClaimed, sortByHeightDesc, List.insertionSort,
    List.orderedInsert, packOptimalLoop, PackingResult.mk.injEq]

/-- C3 (amended): the shelf ("default") algorithm first sorts the input
rectangles by height descending (not by area), then places them
left-to-right, starting a new shelf (`y += shelfHeight + margin`,
`shelfHeight` reset) whenever the next placement would exceed the maximum
row width and the shelf is not empty, with `shelfHeight` tracking the
tallest rectangle on the current shelf: the output is the shelf placement
loop applied to a height-sorted permutation of the input. -/
theorem packOptimal_is_shelf_on_height_sorted (margin maxW : ℚ) (objs : List Rectangle) :
    ∃ l : List Rectangle, l.Perm objs
      ∧ List.Sorted (fun a b => b.height ≤ a.height) l
      ∧ packOptimal margin objs maxW = packOptimalLoop margin maxW 0 0 0 l := by
  haveI ht : IsTotal Rectangle (fun a b => b.height ≤ a.height) :=
    ⟨fun a b => (le_total b.height a.height)⟩
  haveI htr : IsTrans Rectangle (fun a b => b.height ≤ a.height) :=
    ⟨fun _ _ _ hab hbc => le_trans hbc hab⟩
  refine ⟨sortByHeightDesc objs, sortByHeightDesc_perm objs, ?_, ?_⟩
  · exact List.sorted_insertionSort _ objs
  · unfold packOptimal
    by_cases h : objs.length = 0
    · rcases List.length_eq_zero.mp h with rfl
      simp [sortByHeightDesc, List.insertionSort, packOptimalLoop]
    · simp [h]

/-! ### Shelf no-overlap invariant (C4) -/

lemma packOptimalLoop_mem_state (m W : ℚ) (hm : 0 ≤ m) :
    ∀ (l : List Rectangle) (cx cy sh : ℚ),
      (∀ r ∈ l, 0 ≤ r.width ∧ 0 < r.height) → 0 ≤ cx → 0 ≤ sh →
      ∀ p ∈ packOptimalLoop m W cx cy sh l, (p.y = cy ∧ cx ≤ p.x) ∨ cy + sh + m ≤ p.y := by
  intro l
  induction l with
  | nil => intro cx cy sh _ _ _ p hp; simp [packOptimalLoop] at hp
  | cons r rest ih =>
    intro cx cy sh hwf hcx hsh p hp
    have hr := hwf r (List.mem_cons_self r rest)
    have hwf' : ∀ q ∈ rest, 0 ≤ q.width ∧ 0 < q.height :=
      fun q hq => hwf q (List.mem_cons_of_mem r hq)
    by_cases hbr : 0 < cx ∧ W < cx + r.width
    · simp only [packOptimalLoop, if_pos hbr] at hp
      rcases List.mem_cons.mp hp with h | h
      · subst h; right; simp
      · have hsh1 : (if (0 : ℚ) < r.height then r.height else 0) = r.height := if_pos hr.2
        rw [hsh1] at h
        have := ih (0 + r.width + m) (cy + sh + m) r.height hwf'
          (by linarith [hr.1]) (le_of_lt hr.2) p h
        rcases this with ⟨hy, _⟩ | hge
        · right; rw [hy]
        · right; linarith [hr.2]
    · simp only [packOptimalLoop, if_neg hbr] at hp
      rcases List.mem_cons.mp hp with h | h
      · subst h; left; exact ⟨rfl, le_refl cx⟩
      · have hsh' : 0 ≤ (if sh < r.height then r.height else sh) := by
          by_cases hc : sh < r.height
          · rw [if_pos hc]; linarith [hr.2]
          · rw [if_neg hc]; exact hsh
        have := ih (cx + r.width + m) cy (if sh < r.height then r.height else sh) hwf'
          (by linarith [hr.1]) hsh' p h
        rcases this with ⟨hy, hx⟩ | hge
        · left; exact ⟨hy, by linarith [hr.1]⟩
        · right
          have hle : sh ≤ (if sh < r.height then r.height else sh) := by
            by_cases hc : sh < r.height
            · rw [if_pos hc]; linarith
            · rw [if_neg hc]
          linarith

lemma packOptimalLoop_pairwise (m W : ℚ) (hm : 0 ≤ m) :
    ∀ (l : List Rectangle) (cx cy sh : ℚ),
      (∀ r ∈ l, 0 ≤ r.width ∧ 0 < r.height) → 0 ≤ cx → 0 ≤ sh →
      List.Pairwise (fun a b : PackingResult =>
          (a.y = b.y → a.x + a.width + m ≤ b.x)
          ∧ (¬ a.y = b.y → a.y < b.y ∧ a.y + a.height ≤ b.y))
        (packOptimalLoop m W cx cy sh l) := by
  intro l
  induction l with
  | nil => intro cx cy sh _ _ _; simp [packOptimalLoop]
  | cons r rest ih =>
    intro cx cy sh hwf hcx hsh
    have hr := hwf r (List.mem_cons_self r rest)
    have hwf' : ∀ q ∈ rest, 0 ≤ q.width ∧ 0 < q.height :=
      fun q hq => hwf q (List.mem_cons_of_mem r hq)
    by_cases hbr : 0 < cx ∧ W < cx + r.width
    · simp only [packOptimalLoop, if_pos hbr]
      have hsh1 : (if (0 : ℚ) < r.height then r.height else 0) = r.height := if_pos hr.2
      rw [hsh1]
      refine List.Pairwise.cons ?_ (ih (0 + r.width + m) (cy + sh + m) r.height hwf'
        (by linarith [hr.1]) (le_of_lt hr.2))
      intro q hq
      have hmem := packOptimalLoop_mem_state m W hm rest (0 + r.width + m) (cy + sh + m)
        r.height hwf' (by linarith [hr.1]) (le_of_lt hr.2) q hq
      constructor
      · intro hy
        rcases hmem with ⟨_, hx⟩ | hge
        · simp only at hx ⊢; linarith
        · exfalso; simp only at hy; rw [← hy] at hge; linarith [hr.2]
      · intro hne
        rcases hmem with ⟨hy, _⟩ | hge
        · exact absurd hy.symm (by simpa using hne)
        · simp only at hge ⊢; constructor <;> linarith [hr.2]
    · simp only [packOptimalLoop, if_neg hbr]
      have hsh' : 0 ≤ (if sh < r.height then r.height else sh) := by
        by_cases hc : sh < r.height
        · rw [if_pos hc]; linarith [hr.2]
        · rw [if_neg hc]; exact hsh
      have hhle : r.height ≤ (if sh < r.height then r.height else sh) := by
        by_cases hc : sh < r.height
        · rw [if_pos hc]
        · rw [if_neg hc]; linarith
      refine List.Pairwise.cons ?_ (ih (cx + r.width + m) cy
        (if sh < r.height then r.height else sh) hwf' (by linarith [hr.1]) hsh')
      intro q hq
      have hmem := packOptimalLoop_mem_state m W hm rest (cx + r.width + m) cy
        (if sh < r.height then r.height else sh) hwf' (by linarith [hr.1]) hsh' q hq
      constructor
      · intro hy
        rcases hmem with ⟨_, hx⟩ | hge
        · simp only at hx ⊢; linarith
        · exfalso; simp only at hy; rw [← hy] at hge; linarith [hr.2]
      · intro hne
        rcases hmem with ⟨hy, _⟩ | hge
        · exact absurd hy.symm (by simpa using hne)
        · simp only at hge ⊢; constructor <;> linarith [hr.2]

lemma packOptimal_pairwise (margin maxW : ℚ) (objs : List Rectangle)
    (hm : 0 ≤ margin) (hwf : ∀ r ∈ objs, 0 ≤ r.width ∧ 0 < r.height) :
    List.Pairwise (fun a b : PackingResult =>
        (a.y = b.y → a.x + a.width + margin ≤ b.x)
        ∧ (¬ a.y = b.y → a.y < b.y ∧ a.y + a.height ≤ b.y))
      (packOptimal margin objs maxW) := by
  unfold packOptimal
  by_cases h : objs.length = 0
  · simp [h]
  · simp only [h, if_false]
    refine packOptimalLoop_pairwise margin maxW hm (sortByHeightDesc objs) 0 0 0 ?_ le_rfl le_rfl
    intro r hr
    exact hwf r ((sortByHeightDesc_perm objs).mem_iff.mp hr)

/-- C4 (amended): for a nonnegative margin and rectangles of nonnegative
width and positive height, any two distinct rectangles in the shelf packing
result placed at the same Y satisfy `x2 ≥ x1 + w1 + margin` (or the
symmetric inequality), and rectangles placed at different Y never overlap
in the Y direction.  (The claim's unrestricted quantification over margins
and rectangles fails, see the counterexample.) -/
theorem packOptimal_no_overlap (margin maxW : ℚ) (objs : List Rectangle)
    (hm : 0 ≤ margin) (hwf : ∀ r ∈ objs, 0 ≤ r.width ∧ 0 < r.height) :
    ∀ i j : ℕ, i < (packOptimal margin objs maxW).length →
      j < (packOptimal margin objs maxW).length → ¬ i = j →
      (((packOptimal margin objs maxW).getD i ⟨0, 0, 0, false, 0, 0⟩).y
          = ((packOptimal margin objs maxW).getD j ⟨0, 0, 0, false, 0, 0⟩).y →
        ((packOptimal margin objs maxW).getD i ⟨0, 0, 0, false, 0, 0⟩).x
            + ((packOptimal margin objs maxW).getD i ⟨0, 0, 0, false, 0, 0⟩).width + margin
            ≤ ((packOptimal margin objs maxW).getD j ⟨0, 0, 0, false, 0, 0⟩).x
          ∨ ((packOptimal margin objs maxW).getD j ⟨0, 0, 0, false, 0, 0⟩).x
            + ((packOptimal margin objs maxW).getD j ⟨0, 0, 0, false, 0, 0⟩).width + margin
            ≤ ((packOptimal margin objs maxW).getD i ⟨0, 0, 0, false, 0, 0⟩).x)
      ∧ (¬ ((packOptimal margin objs maxW).getD i ⟨0, 0, 0, false, 0, 0⟩).y
          = ((packOptimal margin objs maxW).getD j ⟨0, 0, 0, false, 0, 0⟩).y →
        ((packOptimal margin objs maxW).getD i ⟨0, 0, 0, false, 0, 0⟩).y
            + ((packOptimal margin objs maxW).getD i ⟨0, 0, 0, false, 0, 0⟩).height
            ≤ ((packOptimal margin objs maxW).getD j ⟨0, 0, 0, false, 0, 0⟩).y
          ∨ ((packOptimal margin objs maxW).getD j ⟨0, 0, 0, false, 0, 0⟩).y
            + ((packOptimal margin objs maxW).getD j ⟨0, 0, 0, false, 0, 0⟩).height
            ≤ ((packOptimal margin objs maxW).getD i ⟨0, 0, 0, false, 0, 0⟩).y) := by
  intro i j hi hj hij
  have hp := packOptimal_pairwise margin maxW objs hm hwf
  rw [List.pairwise_iff_getElem] at hp
  rw [List.getD_eq_getElem _ _ hi, List.getD_eq_getElem _ _ hj]
  rcases lt_trichotomy i j with hlt | heq | hgt
  · have := hp i j hi hj hlt
    exact ⟨fun hy => Or.inl (this.1 hy), fun hne => Or.inl (this.2 hne).2⟩
  · exact absurd heq hij
  · have := hp j i hj hi hgt
    refine ⟨fun hy => Or.inr (this.1 hy.symm), fun hne => Or.inr ?_⟩
    exact (this.2 (fun h => hne h.symm)).2

/-- C4 counterexample: with margin 0 and two zero-height rectangles of
width 300 on a 256-wide plate, the shelf reset does not advance Y, so both
rectangles are placed at (0, 0): they share a Y yet neither separation
inequality holds, falsifying the claim's unrestricted quantification. -/
theorem packOptimal_overlap_counterexample :
    ((packOptimal 0 [⟨0, 0, 300, 0, 5⟩, ⟨0, 0, 300, 0, 7⟩] 256).getD 0 ⟨0, 0, 0, false, 0, 0⟩).y
      = ((packOptimal 0 [⟨0, 0, 300, 0, 5⟩, ⟨0, 0, 300, 0, 7⟩] 256).getD 1
          ⟨0, 0, 0, false, 0, 0⟩).y
    ∧ ¬ (((packOptimal 0 [⟨0, 0, 300, 0, 5⟩, ⟨0, 0, 300, 0, 7⟩] 256).getD 0
            ⟨0, 0, 0, false, 0, 0⟩).x
          + ((packOptimal 0 [⟨0, 0, 300, 0, 5⟩, ⟨0, 0, 300, 0, 7⟩] 256).getD 0
              ⟨0, 0, 0, false, 0, 0⟩).width + 0
          ≤ ((packOptimal 0 [⟨0, 0, 300, 0, 5⟩, ⟨0, 0, 300, 0, 7⟩] 256).getD 1
              ⟨0, 0, 0, false, 0, 0⟩).x
        ∨ ((packOptimal 0 [⟨0, 0, 300, 0, 5⟩, ⟨0, 0, 300, 0, 7⟩] 256).getD 1
              ⟨0, 0, 0, false, 0, 0⟩).x
          + ((packOptimal 0 [⟨0, 0, 300, 0, 5⟩, ⟨0, 0, 300, 0, 7⟩] 256).getD 1
              ⟨0, 0, 0, false, 0, 0⟩).width + 0
          ≤ ((packOptimal 0 [⟨0, 0, 300, 0, 5⟩, ⟨0, 0, 300, 0, 7⟩] 256).getD 0
              ⟨0, 0, 0, false, 0, 0⟩).x) := by
  norm_num [packOptimal, sortByHeightDesc, List.insertionSort, List.orderedInsert,
    packOptimalLoop, List.getD]

/-- C4 witness: at margin 10 with footprints 40×40 and 60×30 the amended
no-overlap statement holds concretely. -/
theorem packOptimal_no_overlap_witness :
    (((packOptimal 10 [⟨0, 0, 40, 40, 0⟩, ⟨0, 0, 60, 30, 1⟩] 256).getD 0
          ⟨0, 0, 0, false, 0, 0⟩).y
        = ((packOptimal 10 [⟨0, 0, 40, 40, 0⟩, ⟨0, 0, 60, 30, 1⟩] 256).getD 1
            ⟨0, 0, 0, false, 0, 0⟩).y →
      ((packOptimal 10 [⟨0, 0, 40, 40, 0⟩, ⟨0, 0, 60, 30, 1⟩] 256).getD 0
            ⟨0, 0, 0, false, 0, 0⟩).x
          + ((packOptimal 10 [⟨0, 0, 40, 40, 0⟩, ⟨0, 0, 60, 30, 1⟩] 256).getD 0
              ⟨0, 0, 0, false, 0, 0⟩).width + 10
          ≤ ((packOptimal 10 [⟨0, 0, 40, 40, 0⟩, ⟨0, 0, 60, 30, 1⟩] 256).getD 1
              ⟨0, 0, 0, false, 0, 0⟩).x
        ∨ ((packOptimal 10 [⟨0, 0, 40, 40, 0⟩, ⟨0, 0, 60, 30, 1⟩] 256).getD 1
              ⟨0, 0, 0, false, 0, 0⟩).x
          + ((packOptimal 10 [⟨0, 0, 40, 40, 0⟩, ⟨0, 0, 60, 30, 1⟩] 256).getD 1
              ⟨0, 0, 0, false, 0, 0⟩).width + 10
          ≤ ((packOptimal 10 [⟨0, 0, 40, 40, 0⟩, ⟨0, 0, 60, 30, 1⟩] 256).getD 0
              ⟨0, 0, 0, false, 0, 0⟩).x)
    ∧ (¬ ((packOptimal 10 [⟨0, 0, 40, 40, 0⟩, ⟨0, 0, 60, 30, 1⟩] 256).getD 0
          ⟨0, 0, 0, false, 0, 0⟩).y
        = ((packOptimal 10 [⟨0, 0, 40, 40, 0⟩, ⟨0, 0, 60, 30, 1⟩] 256).getD 1
            ⟨0, 0, 0, false, 0, 0⟩).y →
      ((packOptimal 10 [⟨0, 0, 40, 40, 0⟩, ⟨0, 0, 60, 30, 1⟩] 256).getD 0
            ⟨0, 0, 0, false, 0, 0⟩).y
          + ((packOptimal 10 [⟨0, 0, 40, 40, 0⟩, ⟨0, 0, 60, 30, 1⟩] 256).getD 0
              ⟨0, 0, 0, false, 0, 0⟩).height
          ≤ ((packOptimal 10 [⟨0, 0, 40, 40, 0⟩, ⟨0, 0, 60, 30, 1⟩] 256).getD 1
              ⟨0, 0, 0, false, 0, 0⟩).y
        ∨ ((packOptimal 10 [⟨0, 0, 40, 40, 0⟩, ⟨0, 0, 60, 30, 1⟩] 256).getD 1
              ⟨0, 0, 0, false, 0, 0⟩).y
          + ((packOptimal 10 [⟨0, 0, 40, 40, 0⟩, ⟨0, 0, 60, 30, 1⟩] 256).getD 1
              ⟨0, 0, 0, false, 0, 0⟩).height
          ≤ ((packOptimal 10 [⟨0, 0, 40, 40, 0⟩, ⟨0, 0, 60, 30, 1⟩] 256).getD 0
              ⟨0, 0, 0, false, 0, 0⟩).y) :=
  packOptimal_no_overlap 10 256 [⟨0, 0, 40, 40, 0⟩, ⟨0, 0, 60, 30, 1⟩] (by norm_num)
    (by
      intro r hr
      rcases List.mem_cons.mp hr with rfl | hr
      · exact ⟨by norm_num, by norm_num⟩
      · rcases List.mem_cons.mp hr with rfl | hr
        · exact ⟨by norm_num, by norm_num⟩
        · simp at hr)
    0 1
    (by norm_num [packOptimal, sortByHeightDesc, List.insertionSort, List.orderedInsert,
      packOptimalLoop])
    (by norm_num [packOptimal, sortByHeightDesc, List.insertionSort, List.orderedInsert,
      packOptimalLoop])
    (by norm_num)

/-! ### `CalculateBoundingBox` error behaviour (C2) -/

lemma digitValEval0 : digitVal '0' = 0 := by decide

lemma digitValEval1 : digitVal '1' = 1 := by decide

lemma digitValEval2 : digitVal '2' = 2 := by decide

lemma digitValEval3 : digitVal '3' = 3 := by decide

lemma digitValEval4 : digitVal '4' = 4 := by decide

lemma digitValEval5 : digitVal '5' = 5 := by decide

lemma digitValEval6 : digitVal '6' = 6 := by decide

lemma digitValEval7 : digitVal '7' = 7 := by decide

lemma digitValEval8 : digitVal '8' = 8 := by decide

lemma digitValEval9 : digitVal '9' = 9 := by decide

lemma parsedVertices_cons_none (v : SVertex) (vs : List SVertex)
    (h : parseFloatQ v.x = none ∨ parseFloatQ v.y = none ∨ parseFloatQ v.z = none) :
    parsedVertices (v :: vs) = parsedVertices vs := by
  rcases hx : parseFloatQ v.x with _ | x
  · simp [parsedVertices, List.filterMap_cons, hx]
  · rcases hy : parseFloatQ v.y with _ | y
    · simp [parsedVertices, List.filterMap_cons, hx, hy]
    · rcases hz : parseFloatQ v.z with _ | z
      · simp [parsedVertices, List.filterMap_cons, hx, hy, hz]
      · rw [hx] at h; rw [hy] at h; rw [hz] at h
        simp at h

lemma parsedVertices_cons_some (v : SVertex) (vs : List SVertex) (x y z : ℚ)
    (hx : parseFloatQ v.x = some x) (hy : parseFloatQ v.y = some y)
    (hz : parseFloatQ v.z = some z) :
    parsedVertices (v :: vs) = (x, y, z) :: parsedVertices vs := by
  simp [parsedVertices, List.filterMap_cons, hx, hy, hz]

lemma bboxStep_skip (b : BBoxQ) (v : SVertex)
    (h : parseFloatQ v.x = none ∨ parseFloatQ v.y = none ∨ parseFloatQ v.z = none) :
    bboxStep b v = b := by
  rcases hx : parseFloatQ v.x with _ | x
  · simp [bboxStep, hx]
  · rcases hy : parseFloatQ v.y with _ | y
    · simp [bboxStep, hx, hy]
    · rcases hz : parseFloatQ v.z with _ | z
      · simp [bboxStep, hx, hy, hz]
      · rw [hx] at h; rw [hy] at h; rw [hz] at h
        simp at h

lemma bboxStep_upd (b : BBoxQ) (v : SVertex) (x y z : ℚ)
    (hx : parseFloatQ v.x = some x) (hy : parseFloatQ v.y = some y)
    (hz : parseFloatQ v.z = some z) :
    bboxStep b v = bboxMerge b (x, y, z) := by
  simp [bboxStep, bboxMerge, hx, hy, hz]

lemma bboxFold_parsed : ∀ (l : List SVertex) (b : BBoxQ),
    l.foldl bboxStep b = (parsedVertices l).foldl bboxMerge b := by
  intro l
  induction l with
  | nil => intro b; simp [parsedVertices]
  | cons v vs ih =>
    intro b
    rcases hx : parseFloatQ v.x with _ | x
    · rw [List.foldl_cons, bboxStep_skip b v (Or.inl hx),
        parsedVertices_cons_none v vs (Or.inl hx), ih]
    · rcases hy : parseFloatQ v.y with _ | y
      · rw [List.foldl_cons, bboxStep_skip b v (Or.inr (Or.inl hy)),
          parsedVertices_cons_none v vs (Or.inr (Or.inl hy)), ih]
      · rcases hz : parseFloatQ v.z with _ | z
        · rw [List.foldl_cons, bboxStep_skip b v (Or.inr (Or.inr hz)),
            parsedVertices_cons_none v vs (Or.inr (Or.inr hz)), ih]
        · rw [List.foldl_cons, bboxStep_upd b v x y z hx hy hz,
            parsedVertices_cons_some v vs x y z hx hy hz, List.foldl_cons, ih]

lemma bboxMerge_fold_proj : ∀ (ps : List (ℚ × ℚ × ℚ)) (b : BBoxQ),
    ps.foldl bboxMerge b =
      ⟨(ps.map (fun t => t.1)).foldl min b.minX,
       (ps.map (fun t => t.2.1)).foldl min b.minY,
       (ps.map (fun t => t.2.2)).foldl min b.minZ,
       (ps.map (fun t => t.1)).foldl max b.maxX,
       (ps.map (fun t => t.2.1)).foldl max b.maxY,
       (ps.map (fun t => t.2.2)).foldl max b.maxZ⟩ := by
  intro ps
  induction ps with
  | nil => intro b; simp
  | cons t ts ih =>
    intro b
    rw [List.foldl_cons, ih]
    rfl

/-- C2 (amended): `CalculateBoundingBox` fails exactly when the object has
no mesh, the mesh has zero vertices, or a coordinate of the *first* vertex
is unparsable; otherwise it succeeds and returns the per-axis minima and
maxima over the vertices whose three coordinates parse — later unparsable
vertices are skipped, not errors. -/
theorem calculateBoundingBox_spec (obj : SObject) :
    (obj.mesh = none → ∃ e, calculateBoundingBox obj = .error e)
    ∧ (∀ mesh, obj.mesh = some mesh → mesh.vertices = [] →
        ∃ e, calculateBoundingBox obj = .error e)
    ∧ (∀ mesh v0 vs, obj.mesh = some mesh → mesh.vertices = v0 :: vs →
        (parseFloatQ v0.x = none ∨ parseFloatQ v0.y = none ∨ parseFloatQ v0.z = none →
          ∃ e, calculateBoundingBox obj = .error e)
        ∧ (∀ x0 y0 z0, parseFloatQ v0.x = some x0 → parseFloatQ v0.y = some y0 →
            parseFloatQ v0.z = some z0 →
          ∃ bb, calculateBoundingBox obj = .ok bb
            ∧ listMinQ ((parsedVertices mesh.vertices).map (fun t => t.1)) = some bb.minX
            ∧ listMinQ ((parsedVertices mesh.vertices).map (fun t => t.2.1)) = some bb.minY
            ∧ listMinQ ((parsedVertices mesh.vertices).map (fun t => t.2.2)) = some bb.minZ
            ∧ listMaxQ ((parsedVertices mesh.vertices).map (fun t => t.1)) = some bb.maxX
            ∧ listMaxQ ((parsedVertices mesh.vertices).map (fun t => t.2.1)) = some bb.maxY
            ∧ listMaxQ ((parsedVertices mesh.vertices).map (fun t => t.2.2)) = some bb.maxZ)) := by
  refine ⟨?_, ?_, ?_⟩
  · intro h
    exact ⟨_, by rw [calculateBoundingBox, h]⟩
  · intro mesh hm hv
    refine ⟨"mesh has no vertices", ?_⟩
    rw [calculateBoundingBox, hm]
    simp only [hv]
  · intro mesh v0 vs hm hv
    constructor
    · intro hbad
      rcases hx : parseFloatQ v0.x with _ | x0
      · exact ⟨_, by rw [calculateBoundingBox, hm]; simp only [hv]; rw [hx]⟩
      · rcases hy : parseFloatQ v0.y with _ | y0
        · exact ⟨_, by rw [calculateBoundingBox, hm]; simp only [hv]; rw [hx, hy]⟩
        · rcases hz : parseFloatQ v0.z with _ | z0
          · exact ⟨_, by rw [calculateBoundingBox, hm]; simp only [hv]; rw [hx, hy, hz]⟩
          · rw [hx, hy, hz] at hbad; simp at hbad
    · intro x0 y0 z0 hx hy hz
      refine ⟨(v0 :: vs).foldl bboxStep ⟨x0, y0, z0, x0, y0, z0⟩, ?_, ?_⟩
      · rw [calculateBoundingBox, hm]
        simp only [hv]
        rw [hx, hy, hz]
      · rw [bboxFold_parsed, parsedVertices_cons_some v0 vs x0 y0 z0 hx hy hz, hv,
          parsedVertices_cons_some v0 vs x0 y0 z0 hx hy hz,
          bboxMerge_fold_proj]
        simp only [List.foldl_cons, List.map_cons, bboxMerge]
        simp [listMinQ, listMaxQ]

/-- C2 counterexample: a mesh whose second vertex has the unparsable X
coordinate `"x"` does not make `CalculateBoundingBox` fail — the vertex is
skipped and the box of the remaining vertex is returned — contradicting
"fails … if any vertex coordinate is unparsable as a number". -/
theorem calculateBoundingBox_skips_bad_vertex :
    calculateBoundingBox ⟨some ⟨[⟨"1", "2", "3"⟩, ⟨"x", "9", "9"⟩]⟩⟩ = .ok ⟨1, 2, 3, 1, 2, 3⟩
    ∧ parseFloatQ "x" = none := by
  constructor
  · norm_num +decide [calculateBoundingBox, bboxStep, parseFloatQ, parseFloatCore,
      spanDigits, startsWith, digitsVal, digitValEval1, digitValEval2, digitValEval3,
      digitValEval9]
  · norm_num +decide [parseFloatQ, parseFloatCore, spanDigits, startsWith]

/-- C2 witness: on a mesh with a parsable first vertex (1, 2, 3) and an
unparsable second vertex, the characterization applies and yields the
min/max over the parsable vertices. -/
theorem calculateBoundingBox_spec_witness :
    ∃ bb, calculateBoundingBox ⟨some ⟨[⟨"1", "2", "3"⟩, ⟨"x", "9", "9"⟩]⟩⟩ = .ok bb
      ∧ listMinQ ((parsedVertices [⟨"1", "2", "3"⟩, ⟨"x", "9", "9"⟩]).map (fun t => t.1))
          = some bb.minX
      ∧ listMinQ ((parsedVertices [⟨"1", "2", "3"⟩, ⟨"x", "9", "9"⟩]).map (fun t => t.2.1))
          = some bb.minY
      ∧ listMinQ ((parsedVertices [⟨"1", "2", "3"⟩, ⟨"x", "9", "9"⟩]).map (fun t => t.2.2))
          = some bb.minZ
      ∧ listMaxQ ((parsedVertices [⟨"1", "2", "3"⟩, ⟨"x", "9", "9"⟩]).map (fun t => t.1))
          = some bb.maxX
      ∧ listMaxQ ((parsedVertices [⟨"1", "2", "3"⟩, ⟨"x", "9", "9"⟩]).map (fun t => t.2.1))
          = some bb.maxY
      ∧ listMaxQ ((parsedVertices [⟨"1", "2", "3"⟩, ⟨"x", "9", "9"⟩]).map (fun t => t.2.2))
          = some bb.maxZ :=
  ((calculateBoundingBox_spec ⟨some ⟨[⟨"1", "2", "3"⟩, ⟨"x", "9", "9"⟩]⟩⟩).2.2
    ⟨[⟨"1", "2", "3"⟩, ⟨"x", "9", "9"⟩]⟩ ⟨"1", "2", "3"⟩ [⟨"x", "9", "9"⟩] rfl rfl).2
    1 2 3
    (by norm_num +decide [parseFloatQ, parseFloatCore, spanDigits, startsWith, digitsVal,
      digitValEval1])
    (by norm_num +decide [parseFloatQ, parseFloatCore, spanDigits, startsWith, digitsVal,
      digitValEval2])
    (by norm_num +decide [parseFloatQ, parseFloatCore, spanDigits, startsWith, digitsVal,
      digitValEval3])

/-! ### Malformed transforms default to zero translation (C10) -/

/-- C10: whenever the transform string does not yield 12 `Sscanf`-parsable
numbers, `parseTransform` returns the zero translation, and both
`CalculateCombinedBoundingBox` and `CalculateZOffsetWithTransforms` include
the object at its untranslated position instead of reporting an error. -/
theorem parseTransform_malformed_defaults (s : String) (h : sscanf12 s = none) :
    parseTransform s = (0, 0, 0)
    ∧ (∀ (obj : SObject) (bb : BBoxQ), calculateBoundingBox obj = .ok bb →
        calculateCombinedBoundingBox [obj] [s] = .ok bb)
    ∧ (∀ (obj : SObject) (bb : BBoxQ), calculateBoundingBox obj = .ok bb →
        calculateZOffsetWithTransforms [obj] [s] = -bb.minZ) := by
  have hpt : parseTransform s = (0, 0, 0) := by rw [parseTransform, h]
  refine ⟨hpt, ?_, ?_⟩
  · intro obj bb hok
    rw [calculateCombinedBoundingBox]
    simp only [List.length_cons, List.length_nil, List.zip_cons_cons, List.zip_nil_right]
    rw [if_neg (by norm_num), if_neg (by norm_num)]
    rw [combineBBoxLoop, hok, hpt]
    simp only [combineBBoxLoop]
    cases bb
    simp
  · intro obj bb hok
    rw [calculateZOffsetWithTransforms]
    simp only [List.zip_cons_cons, List.zip_nil_right]
    rw [zOffLoop, hok, hpt]
    simp [zOffLoop]

/-- C10 witness: the malformed transform `"garbage"` leaves a concrete
one-vertex object at its untranslated position. -/
theorem parseTransform_malformed_defaults_witness :
    sscanf12 "garbage" = none
    ∧ parseTransform "garbage" = (0, 0, 0)
    ∧ calculateCombinedBoundingBox [⟨some ⟨[⟨"1", "2", "3"⟩]⟩⟩] ["garbage"]
        = .ok ⟨1, 2, 3, 1, 2, 3⟩
    ∧ calculateZOffsetWithTransforms [⟨some ⟨[⟨"1", "2", "3"⟩]⟩⟩] ["garbage"]
        = -(3 : ℚ) := by
  have hnone : sscanf12 "garbage" = none := by
    norm_num +decide [sscanf12, fieldsLx, splitWs, parseFloatCore, spanDigits, startsWith]
  have hbb : calculateBoundingBox ⟨some ⟨[⟨"1", "2", "3"⟩]⟩⟩ = .ok ⟨1, 2, 3, 1, 2, 3⟩ := by
    norm_num +decide [calculateBoundingBox, bboxStep, parseFloatQ, parseFloatCore,
      spanDigits, startsWith, digitsVal, digitValEval1, digitValEval2, digitValEval3]
  have hmain := parseTransform_malformed_defaults "garbage" hnone
  exact ⟨hnone, hmain.1, hmain.2.1 _ _ hbb, hmain.2.2 _ _ hbb⟩

/-! ### Merged-model ID invariants (C1) -/

lemma ingest_length : ∀ (ps : List InputPart) (i : ℕ), (ingest i ps).length = ps.length := by
  intro ps
  induction ps with
  | nil => intro i; simp [ingest]
  | cons p rest ih => intro i; simp [ingest, ih]

lemma ingest_ids : ∀ (ps : List InputPart) (i : ℕ),
    (ingest i ps).map (fun o => o.id) = List.range' (i + 1) ps.length := by
  intro ps
  induction ps with
  | nil => intro i; simp [ingest]
  | cons p rest ih =>
    intro i
    simp only [ingest, List.map_cons, ih, List.length_cons, List.range'_succ]

lemma ingest_shape : ∀ (ps : List InputPart) (i : ℕ),
    ∀ o ∈ ingest i ps, o.mesh.isSome = true ∧ o.components = [] := by
  intro ps
  induction ps with
  | nil => intro i o ho; simp [ingest] at ho
  | cons p rest ih =>
    intro i o ho
    rcases List.mem_cons.mp ho with rfl | h
    · exact ⟨rfl, rfl⟩
    · exact ih (i + 1) o h

lemma normalizeAll_ids (inputs : List InputPart) (ogs : List GroupCfg)
    (objs : List MergeObject) :
    (normalizeAll inputs ogs objs).map (fun o => o.id) = objs.map (fun o => o.id) := by
  simp [normalizeAll, normalizeMeshObject]

lemma normalizeAll_shape (inputs : List InputPart) (ogs : List GroupCfg)
    (objs : List MergeObject) :
    ∀ o ∈ normalizeAll inputs ogs objs,
      ∃ o0 ∈ objs, o.id = o0.id ∧ o.mesh.isSome = o0.mesh.isSome
        ∧ o.components = o0.components := by
  intro o ho
  rcases List.mem_map.mp ho with ⟨o0, h0, rfl⟩
  exact ⟨o0, h0, rfl, by simp [normalizeMeshObject], rfl⟩

lemma memberIndices_bounds (inputs : List InputPart) (gname : String) :
    ∀ mid ∈ memberIndices inputs gname, 1 ≤ mid ∧ mid ≤ inputs.length := by
  intro mid hmid
  simp only [memberIndices, List.mem_map, List.mem_filter] at hmid
  obtain ⟨⟨i, p⟩, ⟨hmem, _⟩, rfl⟩ := hmid
  have hlt : i < 0 + inputs.length := List.fst_lt_add_of_mem_enumFrom hmem
  omega

lemma groupInfos_meshIDs_bounds (inputs : List InputPart) :
    ∀ info ∈ groupInfos inputs, ∀ mid ∈ info.meshIDs, 1 ≤ mid ∧ mid ≤ inputs.length := by
  intro info hinfo mid hmid
  rcases List.mem_map.mp hinfo with ⟨g, _, rfl⟩
  exact memberIndices_bounds inputs g mid hmid

lemma infoAt_meshIDs_bounds (inputs : List InputPart) (k : ℕ) :
    ∀ mid ∈ (infoAt (groupInfos inputs) k).meshIDs, 1 ≤ mid ∧ mid ≤ inputs.length := by
  intro mid hmid
  unfold infoAt at hmid
  by_cases hk : k < (groupInfos inputs).length
  · rw [List.getD_eq_getElem _ _ hk] at hmid
    exact groupInfos_meshIDs_bounds inputs _ (List.getElem_mem hk) mid hmid
  · rw [List.getD_eq_default _ _ (le_of_not_lt hk)] at hmid
    simp [defaultInfo] at hmid

lemma emitLoop_parents_ids (infos : List GroupInfo) (ogs : List GroupCfg) :
    ∀ (rs : List PackingResult) (nid : ℕ),
      ((emitLoop infos ogs nid rs).1).map (fun o => o.id)
        = List.range' nid ((emitLoop infos ogs nid rs).1).length := by
  intro rs
  induction rs with
  | nil => intro nid; simp [emitLoop]
  | cons r rest ih =>
    intro nid
    rcases h : (infoAt infos r.id).meshIDs with _ | ⟨m, _ | ⟨m2, ms⟩⟩ <;>
      simp only [emitLoop, h] <;> simp only [List.map_cons, List.length_cons, ih,
        List.range'_succ]

lemma emitLoop_parents_shape (infos : List GroupInfo) (ogs : List GroupCfg) :
    ∀ (rs : List PackingResult) (nid : ℕ),
      ∀ p ∈ (emitLoop infos ogs nid rs).1, p.mesh = none
        ∧ ∀ c ∈ p.components, ∃ j, c.objectID ∈ (infoAt infos j).meshIDs := by
  intro rs
  induction rs with
  | nil => intro nid p hp; simp [emitLoop] at hp
  | cons r rest ih =>
    intro nid p hp
    rcases h : (infoAt infos r.id).meshIDs with _ | ⟨m, _ | ⟨m2, ms⟩⟩ <;>
        simp only [emitLoop, h] at hp
    · rcases List.mem_cons.mp hp with rfl | hp2
      · refine ⟨rfl, ?_⟩
        intro c hc
        simp only [List.mem_map] at hc
        obtain ⟨q, hq, rfl⟩ := hc
        exact ⟨r.id, by rw [h]; exact (List.of_mem_zip hq).1⟩
      · exact ih (nid + 1) p hp2
    · exact ih nid p hp
    · rcases List.mem_cons.mp hp with rfl | hp2
      · refine ⟨rfl, ?_⟩
        intro c hc
        simp only [List.mem_map] at hc
        obtain ⟨q, hq, rfl⟩ := hc
        exact ⟨r.id, by rw [h]; exact (List.of_mem_zip hq).1⟩
      · exact ih (nid + 1) p hp2

lemma emitLoop_items_ids (infos : List GroupInfo) (ogs : List GroupCfg) :
    ∀ (rs : List PackingResult) (nid : ℕ),
      ∀ it ∈ (emitLoop infos ogs nid rs).2.1,
        (∃ j, it.objectID ∈ (infoAt infos j).meshIDs)
        ∨ it.objectID ∈ ((emitLoop infos ogs nid rs).1).map (fun o => o.id) := by
  intro rs
  induction rs with
  | nil => intro nid it hit; simp [emitLoop] at hit
  | cons r rest ih =>
    intro nid it hit
    rcases h : (infoAt infos r.id).meshIDs with _ | ⟨m, _ | ⟨m2, ms⟩⟩ <;>
        simp only [emitLoop, h] at hit ⊢
    · rcases List.mem_cons.mp hit with rfl | hit2
      · right; simp
      · rcases ih (nid + 1) it hit2 with hj | hp
        · exact Or.inl hj
        · right; simp only [List.map_cons, List.mem_cons]; right; exact hp
    · rcases List.mem_cons.mp hit with rfl | hit2
      · left; exact ⟨r.id, by rw [h]; simp⟩
      · exact ih nid it hit2
    · rcases List.mem_cons.mp hit with rfl | hit2
      · right; simp
      · rcases ih (nid + 1) it hit2 with hj | hp
        · exact Or.inl hj
        · right; simp only [List.map_cons, List.mem_cons]; right; exact hp


lemma merged_core (inputs : List InputPart) (ogs : List GroupCfg)
    (results : List PackingResult) (objs : List MergeObject) (items : List Item)
    (hobjs : objs = normalizeAll inputs ogs (ingest 0 inputs)
        ++ (emitLoop (groupInfos inputs) ogs (inputs.length + 1) results).1)
    (hitems : items = (emitLoop (groupInfos inputs) ogs (inputs.length + 1) results).2.1) :
    (objs.map (fun o => o.id) = List.range' 1 objs.length)
    ∧ (objs.map (fun o => o.id)).Nodup
    ∧ (∀ o ∈ objs, o.mesh = none → ∀ o2 ∈ objs, o2.mesh.isSome = true → o2.id < o.id)
    ∧ (∀ o ∈ objs, ∀ c ∈ o.components, c.objectID ∈ objs.map (fun o => o.id))
    ∧ (∀ it ∈ items, it.objectID ∈ objs.map (fun o => o.id)) := by
  subst hobjs hitems
  have hmids : (normalizeAll inputs ogs (ingest 0 inputs)).map (fun o => o.id)
      = List.range' 1 inputs.length := by
    rw [normalizeAll_ids, ingest_ids]
  have hmlen : (normalizeAll inputs ogs (ingest 0 inputs)).length = inputs.length := by
    have := congrArg List.length hmids
    simpa using this
  have hpids := emitLoop_parents_ids (groupInfos inputs) ogs results (inputs.length + 1)
  have hidsall : ((normalizeAll inputs ogs (ingest 0 inputs)
        ++ (emitLoop (groupInfos inputs) ogs (inputs.length + 1) results).1).map
          (fun o => o.id))
      = List.range' 1 (inputs.length
          + (emitLoop (groupInfos inputs) ogs (inputs.length + 1) results).1.length) := by
    rw [List.map_append, hmids, hpids]
    have := List.range'_append 1 inputs.length
      (emitLoop (groupInfos inputs) ogs (inputs.length + 1) results).1.length 1
    simpa [Nat.add_comm] using this
  have hlen : (normalizeAll inputs ogs (ingest 0 inputs)
        ++ (emitLoop (groupInfos inputs) ogs (inputs.length + 1) results).1).length
      = inputs.length
        + (emitLoop (groupInfos inputs) ogs (inputs.length + 1) results).1.length := by
    simp [hmlen]
  have hmesh_mem_id : ∀ o2 ∈ normalizeAll inputs ogs (ingest 0 inputs),
      1 ≤ o2.id ∧ o2.id ≤ inputs.length := by
    intro o2 h2
    have : o2.id ∈ List.range' 1 inputs.length := by
      rw [← hmids]; exact List.mem_map.mpr ⟨o2, h2, rfl⟩
    rcases List.mem_range'.mp this with ⟨i, hi, hEq⟩
    omega
  have hpar_mem_id : ∀ o ∈ (emitLoop (groupInfos inputs) ogs (inputs.length + 1) results).1,
      inputs.length + 1 ≤ o.id := by
    intro o ho
    have : o.id ∈ List.range' (inputs.length + 1)
        (emitLoop (groupInfos inputs) ogs (inputs.length + 1) results).1.length := by
      rw [← hpids]; exact List.mem_map.mpr ⟨o, ho, rfl⟩
    rcases List.mem_range'.mp this with ⟨i, hi, hEq⟩
    omega
  refine ⟨?_, ?_, ?_, ?_, ?_⟩
  · rw [hidsall, hlen]
  · rw [hidsall]
    exact List.nodup_range' _ _
  · intro o ho hnone o2 ho2 hsome
    have ho' : o ∈ (emitLoop (groupInfos inputs) ogs (inputs.length + 1) results).1 := by
      rcases List.mem_append.mp ho with h | h
      · exfalso
        obtain ⟨o0, h0, _, hiso, _⟩ := normalizeAll_shape inputs ogs (ingest 0 inputs) o h
        have hsome0 := (ingest_shape inputs 0 o0 h0).1
        rw [hnone] at hiso
        rw [hsome0] at hiso
        simp at hiso
      · exact h
    have ho2' : o2 ∈ normalizeAll inputs ogs (ingest 0 inputs) := by
      rcases List.mem_append.mp ho2 with h | h
      · exact h
      · exfalso
        have hnone2 := (emitLoop_parents_shape (groupInfos inputs) ogs results
          (inputs.length + 1) o2 h).1
        rw [hnone2] at hsome
        simp at hsome
    have h1 := hmesh_mem_id o2 ho2'
    have h2 := hpar_mem_id o ho'
    omega
  · intro o ho c hc
    rw [hidsall]
    rcases List.mem_append.mp ho with h | h
    · exfalso
      obtain ⟨o0, h0, _, _, hcomp⟩ := normalizeAll_shape inputs ogs (ingest 0 inputs) o h
      rw [hcomp, (ingest_shape inputs 0 o0 h0).2] at hc
      simp at hc
    · obtain ⟨j, hj⟩ := (emitLoop_parents_shape (groupInfos inputs) ogs results
        (inputs.length + 1) o h).2 c hc
      have hb := infoAt_meshIDs_bounds inputs j c.objectID hj
      rw [List.mem_range']
      exact ⟨c.objectID - 1, by omega, by omega⟩
  · intro it hit
    rw [hidsall]
    rcases emitLoop_items_ids (groupInfos inputs) ogs results (inputs.length + 1) it hit
      with ⟨j, hj⟩ | hp
    · have hb := infoAt_meshIDs_bounds inputs j it.objectID hj
      rw [List.mem_range']
      exact ⟨it.objectID - 1, by omega, by omega⟩
    · rw [hpids] at hp
      rcases List.mem_range'.mp hp with ⟨i, hi, hEq⟩
      rw [List.mem_range']
      exact ⟨inputs.length + i, by omega, by omega⟩

/-- C1: in every merged model, the object IDs (mesh objects first, then
synthetic parents, in document order) are exactly the consecutive range
starting at 1 — a single monotonically increasing counter — hence no two
objects share an ID; every synthetic parent (an object without a mesh) has
an ID strictly greater than every mesh object's ID; and every ObjectID
referenced by a Component or by a Build Item is the ID of some object in
`Resources.Objects`. -/
theorem merged_model_id_invariants (sqrtModel : ℚ → ℚ) (inputs : List InputPart)
    (ogs : List GroupCfg) (margin : ℚ) (alg : PackingAlgorithm) :
    ((combineInternal sqrtModel inputs ogs margin alg).objects.map (fun o => o.id))
        = List.range' 1 (combineInternal sqrtModel inputs ogs margin alg).objects.length
    ∧ ((combineInternal sqrtModel inputs ogs margin alg).objects.map (fun o => o.id)).Nodup
    ∧ (∀ o ∈ (combineInternal sqrtModel inputs ogs margin alg).objects, o.mesh = none →
        ∀ o2 ∈ (combineInternal sqrtModel inputs ogs margin alg).objects,
          o2.mesh.isSome = true → o2.id < o.id)
    ∧ (∀ o ∈ (combineInternal sqrtModel inputs ogs margin alg).objects,
        ∀ c ∈ o.components, c.objectID ∈
          (combineInternal sqrtModel inputs ogs margin alg).objects.map (fun o => o.id))
    ∧ (∀ it ∈ (combineInternal sqrtModel inputs ogs margin alg).items, it.objectID ∈
        (combineInternal sqrtModel inputs ogs margin alg).objects.map (fun o => o.id)) := by
  cases alg with
  | compact =>
    exact merged_core inputs ogs (packCompact sqrtModel margin (packRects inputs)) _ _ rfl rfl
  | default =>
    exact merged_core inputs ogs (packOptimal margin (packRects inputs) 256) _ _ rfl rfl


/-! ### Ground normalization (C6) -/

lemma foldl_min_shift : ∀ (zs : List ℚ) (a off : ℚ),
    (zs.map (fun z => z + off)).foldl min (a + off) = zs.foldl min a + off := by
  intro zs
  induction zs with
  | nil => intro a off; simp
  | cons z zs ih =>
    intro a off
    simp only [List.map_cons, List.foldl_cons]
    rw [min_add_add_right]
    exact ih _ _

lemma listMinQ_shift (l : List ℚ) (off : ℚ) :
    listMinQ (l.map (fun z => z + off)) = (listMinQ l).map (fun z => z + off) := by
  cases l with
  | nil => simp [listMinQ]
  | cons z zs => simp [listMinQ, foldl_min_shift]

lemma meshMinZ_applyZOffset (m : MeshQ) (off : ℚ) (hne : ¬ m.vertices = []) :
    meshMinZ (applyZOffsetQ off m) = meshMinZ m + off := by
  rcases m with ⟨verts⟩
  cases verts with
  | nil => exact absurd rfl hne
  | cons v vs =>
    simp only [applyZOffsetQ, meshMinZ, List.map_cons]
    have : ∀ (ws : List VertexQ) (a : ℚ),
        (ws.map (fun w => (⟨w.x, w.y, w.z + off⟩ : VertexQ))).foldl
            (fun acc w => min acc w.z) (a + off)
          = ws.foldl (fun acc w => min acc w.z) a + off := by
      intro ws
      induction ws with
      | nil => intro a; simp
      | cons w ws ih =>
        intro a
        simp only [List.map_cons, List.foldl_cons]
        rw [min_add_add_right]
        exact ih _
    exact this vs v.z

lemma applyZOffsetQ_zero (m : MeshQ) : applyZOffsetQ 0 m = m := by
  rcases m with ⟨verts⟩
  simp only [applyZOffsetQ, MeshQ.mk.injEq]
  have h0 : verts.map (fun v => (⟨v.x, v.y, v.z + 0⟩ : VertexQ)) = verts.map id :=
    List.map_congr_left (fun v _ => by cases v; simp)
  rw [h0, List.map_id]

lemma normalizeAll_cons (inputs : List InputPart) (ogs : List GroupCfg)
    (o : MergeObject) (objs : List MergeObject) :
    normalizeAll inputs ogs (o :: objs)
      = normalizeMeshObject inputs ogs o :: normalizeAll inputs ogs objs := rfl

lemma normIngest_zip_mesh (inputs : List InputPart) (ogs : List GroupCfg) (g : String) :
    ∀ (ps : List InputPart) (i : ℕ),
      ∀ q ∈ (normalizeAll inputs ogs (ingest i ps)).zip ps,
        baseName q.2.scad.name = g →
        q.1.mesh = some (applyZOffsetQ (zOffsetFor inputs ogs g) q.2.mesh) := by
  intro ps
  induction ps with
  | nil => intro i q hq; simp [normalizeAll, ingest] at hq
  | cons p rest ih =>
    intro i q hq hb
    simp only [ingest, normalizeAll_cons, List.zip_cons_cons, List.mem_cons] at hq
    rcases hq with rfl | hq
    · simp only at hb
      simp only [normalizeMeshObject, rotateMeshVertices, hb]
      rfl
    · exact ih (i + 1) q hq hb

lemma post_zip_eval (inputs : List InputPart) (ogs : List GroupCfg) (g : String) :
    ∀ (ps : List InputPart) (i : ℕ),
      ((((normalizeAll inputs ogs (ingest i ps)).zip ps).filter
          (fun p => baseName p.2.scad.name = g)).map
          (fun p => meshMinZ (p.1.mesh.getD ⟨[]⟩) + p.2.scad.posZ))
        = ((ps.filter (fun p => baseName p.scad.name = g)).map
            (fun p => meshMinZ (applyZOffsetQ (zOffsetFor inputs ogs g) p.mesh)
              + p.scad.posZ)) := by
  intro ps
  induction ps with
  | nil => intro i; simp [normalizeAll, ingest]
  | cons p rest ih =>
    intro i
    simp only [ingest, normalizeAll_cons, List.zip_cons_cons]
    by_cases hb : baseName p.scad.name = g
    · rw [List.filter_cons_of_pos (by simpa using hb),
        List.filter_cons_of_pos (by simpa using hb)]
      simp only [List.map_cons]
      rw [ih]
      congr 1
      simp only [normalizeMeshObject, rotateMeshVertices, hb]
      rfl
    · rw [List.filter_cons_of_neg (by simpa using hb),
        List.filter_cons_of_neg (by simpa using hb)]
      exact ih (i + 1)

lemma mergedMeshObjects_combine (sqrtModel : ℚ → ℚ) (inputs : List InputPart)
    (ogs : List GroupCfg) (margin : ℚ) (alg : PackingAlgorithm) :
    mergedMeshObjects (combineInternal sqrtModel inputs ogs margin alg)
      = normalizeAll inputs ogs (ingest 0 inputs) := by
  have core : ∀ results : List PackingResult,
      (normalizeAll inputs ogs (ingest 0 inputs)
          ++ (emitLoop (groupInfos inputs) ogs (inputs.length + 1) results).1).filter
          (fun o => o.mesh.isSome)
        = normalizeAll inputs ogs (ingest 0 inputs) := by
    intro results
    rw [List.filter_append]
    have h1 : (normalizeAll inputs ogs (ingest 0 inputs)).filter (fun o => o.mesh.isSome)
        = normalizeAll inputs ogs (ingest 0 inputs) := by
      rw [List.filter_eq_self]
      intro o ho
      obtain ⟨o0, h0, _, hiso, _⟩ := normalizeAll_shape inputs ogs (ingest 0 inputs) o ho
      have := (ingest_shape inputs 0 o0 h0).1
      simp only [hiso, this]
    have h2 : ((emitLoop (groupInfos inputs) ogs (inputs.length + 1) results).1).filter
        (fun o => o.mesh.isSome) = [] := by
      rw [List.filter_eq_nil_iff]
      intro o ho
      have := (emitLoop_parents_shape (groupInfos inputs) ogs results
        (inputs.length + 1) o ho).1
      simp [this]
    rw [h1, h2, List.append_nil]
  cases alg with
  | compact => exact core (packCompact sqrtModel margin (packRects inputs))
  | default => exact core (packOptimal margin (packRects inputs) 256)

lemma groupInputs_eq_filter (inputs : List InputPart) (g : String) :
    groupInputs inputs g = inputs.filter (fun p => baseName p.scad.name = g) := rfl

/-- C6: for every group whose effective normalize flag is set, with at least
one member and nonempty member meshes, the minimum over the group's members
of (the member's post-merge minimum Z plus its own Z position offset) is
exactly 0 (hence within 1e-6); for a group whose flag is unset, the merge
leaves every member's mesh unchanged. -/
theorem ground_normalization (sqrtModel : ℚ → ℚ) (inputs : List InputPart)
    (ogs : List GroupCfg) (margin : ℚ) (alg : PackingAlgorithm) (gname : String) :
    (effectiveNormalize ogs gname = true →
      ¬ groupInputs inputs gname = [] →
      (∀ p ∈ groupInputs inputs gname, ¬ p.mesh.vertices = []) →
      listMinQ (postMergeEffMinZs (combineInternal sqrtModel inputs ogs margin alg)
        inputs gname) = some 0)
    ∧ (effectiveNormalize ogs gname = false →
      ∀ q ∈ (mergedMeshObjects (combineInternal sqrtModel inputs ogs margin alg)).zip inputs,
        baseName q.2.scad.name = gname → q.1.mesh = some q.2.mesh) := by
  have hzip := mergedMeshObjects_combine sqrtModel inputs ogs margin alg
  constructor
  · intro hnorm hne hmeshne
    rw [postMergeEffMinZs, hzip, post_zip_eval inputs ogs gname inputs 0,
      ← groupInputs_eq_filter]
    have hmap : ((groupInputs inputs gname).map
        (fun p => meshMinZ (applyZOffsetQ (zOffsetFor inputs ogs gname) p.mesh)
          + p.scad.posZ))
        = ((groupInputs inputs gname).map
            (fun p => (meshMinZ p.mesh + p.scad.posZ)
              + zOffsetFor inputs ogs gname)) := by
      apply List.map_congr_left
      intro p hp
      rw [meshMinZ_applyZOffset p.mesh _ (hmeshne p hp)]
      ring
    rw [hmap]
    have : ((groupInputs inputs gname).map
        (fun p => (meshMinZ p.mesh + p.scad.posZ) + zOffsetFor inputs ogs gname))
        = (memberEffMinZs inputs gname).map
            (fun z => z + zOffsetFor inputs ogs gname) := by
      rw [memberEffMinZs, List.map_map]
      rfl
    rw [this, listMinQ_shift]
    have hnonempty : ¬ memberEffMinZs inputs gname = [] := by
      rw [memberEffMinZs]
      intro h
      exact hne (List.map_eq_nil_iff.mp h)
    rcases hmin : listMinQ (memberEffMinZs inputs gname) with _ | m0
    · exfalso
      rcases hl : memberEffMinZs inputs gname with _ | ⟨z, zs⟩
      · exact hnonempty hl
      · rw [hl] at hmin; simp [listMinQ] at hmin
    · simp only [Option.map_some']
      have hoff : zOffsetFor inputs ogs gname = if m0 = 0 then 0 else -m0 := by
        rw [zOffsetFor, if_pos hnorm, hmin]
      rw [hoff]
      by_cases hm0 : m0 = 0
      · rw [if_pos hm0, hm0]
        simp
      · rw [if_neg hm0]
        simp
  · intro hnorm q hq hb
    rw [hzip] at hq
    have := normIngest_zip_mesh inputs ogs gname inputs 0 q hq hb
    rw [this]
    have hoff : zOffsetFor inputs ogs gname = 0 := by
      rw [zOffsetFor, hnorm]
      simp
    rw [hoff, applyZOffsetQ_zero]

/-- C6 witness: a single-part group "c" with one vertex at Z = 3 and
position offset Z = 2 normalizes so that the post-merge minimum of
`minZ + PositionZ` is exactly 0. -/
theorem ground_normalization_witness :
    listMinQ (postMergeEffMinZs
      (combineInternal (fun _ => 0) [⟨⟨[⟨0, 0, 3⟩]⟩, ⟨"c", 1, 0, 0, 0, 0, 0, 2⟩⟩]
        [] 10 PackingAlgorithm.default)
      [⟨⟨[⟨0, 0, 3⟩]⟩, ⟨"c", 1, 0, 0, 0, 0, 0, 2⟩⟩] "c") = some 0 :=
  (ground_normalization (fun _ => 0) [⟨⟨[⟨0, 0, 3⟩]⟩, ⟨"c", 1, 0, 0, 0, 0, 0, 2⟩⟩]
    [] 10 PackingAlgorithm.default "c").1
    (by decide)
    (by decide)
    (by decide)


/-! ### Settings writer: part IDs and extruder resolution (C7, C9) -/

lemma buildPartsLoop_length :
    ∀ (sfs : List ScadFile) (soid partID vidx : ℕ),
      (buildPartsLoop soid partID vidx sfs).1.length = sfs.length
      ∧ (buildPartsLoop soid partID vidx sfs).2 = partID + sfs.length := by
  intro sfs
  induction sfs with
  | nil => intro soid partID vidx; simp [buildPartsLoop]
  | cons sf rest ih =>
    intro soid partID vidx
    have h := ih soid (partID + 1) (vidx + 1)
    simp only [buildPartsLoop, List.length_cons]
    refine ⟨?_, ?_⟩
    · rw [h.1]
    · rw [h.2]; omega

lemma extruder_not_mem_base (nm soid vidx : String) (v : String) (fc : ℤ) :
    ¬ SMeta.mk "extruder" v fc ∈
      ([⟨"name", nm, 0⟩, ⟨"matrix", "1 0 0 0 0 1 0 0 0 0 1 0 0 0 0 1", 0⟩,
        ⟨"source_file", "combined.3mf", 0⟩, ⟨"source_object_id", soid, 0⟩,
        ⟨"source_volume_id", vidx, 0⟩] : List SMeta) := by
  intro hmem
  simp only [List.mem_cons, List.not_mem_nil, or_false, SMeta.mk.injEq] at hmem
  rcases hmem with ⟨h, _⟩ | ⟨h, _⟩ | ⟨h, _⟩ | ⟨h, _⟩ | ⟨h, _⟩ <;> revert h <;> decide

lemma buildPartsLoop_parts :
    ∀ (sfs : List ScadFile) (soid partID vidx k : ℕ), k < sfs.length →
      (((buildPartsLoop soid partID vidx sfs).1.getD k ⟨0, "", [], 0⟩).id = partID + k)
      ∧ (¬ settingsSlot ((sfs.getD k defaultScad).filamentSlot) (partID + k) = 1 →
          SMeta.mk "extruder"
              (toString (settingsSlot ((sfs.getD k defaultScad).filamentSlot) (partID + k))) 0
            ∈ ((buildPartsLoop soid partID vidx sfs).1.getD k ⟨0, "", [], 0⟩).metadata)
      ∧ (settingsSlot ((sfs.getD k defaultScad).filamentSlot) (partID + k) = 1 →
          ∀ (v : String) (fc : ℤ), ¬ SMeta.mk "extruder" v fc
            ∈ ((buildPartsLoop soid partID vidx sfs).1.getD k ⟨0, "", [], 0⟩).metadata) := by
  intro sfs
  induction sfs with
  | nil => intro soid partID vidx k hk; simp at hk
  | cons sf rest ih =>
    intro soid partID vidx k hk
    cases k with
    | zero =>
      simp only [buildPartsLoop, List.getD_cons_zero, Nat.add_zero]
      refine ⟨trivial, ?_, ?_⟩
      · intro hne
        rw [if_pos hne]
        simp
      · intro heq v fc
        rw [if_neg (by rw [heq]; simp)]
        exact extruder_not_mem_base sf.name _ _ v fc
    | succ k0 =>
      have hk0 : k0 < rest.length := by simpa using hk
      have h := ih soid (partID + 1) (vidx + 1) k0 hk0
      have harith : partID + 1 + k0 = partID + (k0 + 1) := by omega
      rw [harith] at h
      simpa only [buildPartsLoop, List.getD_cons_succ] using h

lemma buildObjectsLoop_ids :
    ∀ (groups : List GroupOut) (partID soid : ℕ),
      ((buildObjectsLoop partID soid groups).1.map (fun o => o.id))
        = groups.map (fun g => g.id) := by
  intro groups
  induction groups with
  | nil => intro partID soid; simp [buildObjectsLoop]
  | cons g gs ih => intro partID soid; simp only [buildObjectsLoop, List.map_cons, ih]

lemma buildObjectsLoop_parts_lengths :
    ∀ (groups : List GroupOut) (partID soid : ℕ),
      ((buildObjectsLoop partID soid groups).1.map (fun o => o.parts.length))
        = groups.map (fun g => g.parts.length) := by
  intro groups
  induction groups with
  | nil => intro partID soid; simp [buildObjectsLoop]
  | cons g gs ih =>
    intro partID soid
    simp only [buildObjectsLoop, List.map_cons, ih,
      (buildPartsLoop_length g.parts soid partID 0).1]

lemma buildObjectsLoop_flatParts :
    ∀ (groups : List GroupOut) (partID soid k : ℕ),
      k < ((groups.map (fun g : GroupOut => g.parts)).flatten).length →
      ((((buildObjectsLoop partID soid groups).1.map (fun o : SettingsObject => o.parts)).flatten.getD k
          ⟨0, "", [], 0⟩).id = partID + k)
      ∧ (¬ settingsSlot (((groups.map (fun g : GroupOut => g.parts)).flatten.getD k
            defaultScad).filamentSlot) (partID + k) = 1 →
          SMeta.mk "extruder"
              (toString (settingsSlot (((groups.map (fun g : GroupOut => g.parts)).flatten.getD k
                defaultScad).filamentSlot) (partID + k))) 0
            ∈ (((buildObjectsLoop partID soid groups).1.map (fun o : SettingsObject => o.parts)).flatten.getD k
                ⟨0, "", [], 0⟩).metadata)
      ∧ (settingsSlot (((groups.map (fun g : GroupOut => g.parts)).flatten.getD k
            defaultScad).filamentSlot) (partID + k) = 1 →
          ∀ (v : String) (fc : ℤ), ¬ SMeta.mk "extruder" v fc
            ∈ (((buildObjectsLoop partID soid groups).1.map (fun o : SettingsObject => o.parts)).flatten.getD k
                ⟨0, "", [], 0⟩).metadata) := by
  intro groups
  induction groups with
  | nil => intro partID soid k hk; simp at hk
  | cons g gs ih =>
    intro partID soid k hk
    have hlen := (buildPartsLoop_length g.parts soid partID 0).1
    have hnext := (buildPartsLoop_length g.parts soid partID 0).2
    simp only [buildObjectsLoop, List.map_cons, List.flatten_cons] at hk ⊢
    by_cases hkl : k < g.parts.length
    · rw [List.getD_append _ _ _ _ (by rw [hlen]; exact hkl),
        List.getD_append _ _ _ _ hkl]
      exact buildPartsLoop_parts g.parts soid partID 0 k hkl
    · have hge : g.parts.length ≤ k := le_of_not_lt hkl
      rw [List.getD_append_right _ _ _ _ (by rw [hlen]; exact hge),
        List.getD_append_right _ _ _ _ hge, hlen]
      have hk2 : k - g.parts.length < ((gs.map (fun g => g.parts)).flatten).length := by
        simp only [List.length_append] at hk
        omega
      rw [hnext]
      have h := ih (partID + g.parts.length) (soid + 1) (k - g.parts.length) hk2
      have harith : partID + g.parts.length + (k - g.parts.length) = partID + k := by
        omega
      rw [harith] at h
      exact h

lemma ingest_pid :
    ∀ (ps : List InputPart) (i k : ℕ), k < ps.length →
      ((ingest i ps).getD k ⟨0, "", none, none, []⟩).pid
        = some (resolveSlot ((ps.getD k ⟨⟨[]⟩, defaultScad⟩).scad.filamentSlot) (i + k)) := by
  intro ps
  induction ps with
  | nil => intro i k hk; simp at hk
  | cons p rest ih =>
    intro i k hk
    cases k with
    | zero => simp [ingest]
    | succ k0 =>
      have hk0 : k0 < rest.length := by simpa using hk
      have h := ih (i + 1) k0 hk0
      have harith : i + 1 + k0 = i + (k0 + 1) := by omega
      rw [harith] at h
      simpa only [ingest, List.getD_cons_succ] using h

lemma combine_objects_getD (sqrtModel : ℚ → ℚ) (inputs : List InputPart)
    (ogs : List GroupCfg) (margin : ℚ) (alg : PackingAlgorithm) (k : ℕ)
    (hk : k < inputs.length) :
    (combineInternal sqrtModel inputs ogs margin alg).objects.getD k ⟨0, "", none, none, []⟩
      = normalizeMeshObject inputs ogs
          ((ingest 0 inputs).getD k ⟨0, "", none, none, []⟩) := by
  have hlen : (ingest 0 inputs).length = inputs.length := ingest_length inputs 0
  have core : ∀ results : List PackingResult,
      ((normalizeAll inputs ogs (ingest 0 inputs)
          ++ (emitLoop (groupInfos inputs) ogs (inputs.length + 1) results).1).getD k
            ⟨0, "", none, none, []⟩)
        = normalizeMeshObject inputs ogs
            ((ingest 0 inputs).getD k ⟨0, "", none, none, []⟩) := by
    intro results
    have hklt : k < (normalizeAll inputs ogs (ingest 0 inputs)).length := by
      simp only [normalizeAll, List.length_map, hlen]
      exact hk
    rw [List.getD_append _ _ _ _ hklt]
    rw [List.getD_eq_getElem _ _ hklt]
    simp only [normalizeAll]
    rw [List.getElem_map]
    rw [List.getD_eq_getElem _ _ (by rw [hlen]; exact hk)]
  cases alg with
  | compact => exact core (packCompact sqrtModel margin (packRects inputs))
  | default => exact core (packOptimal margin (packRects inputs) 256)

/-- C7 (amended): on the model side, a part whose configured filament slot
is 0 receives PID `(ingestion_index mod 4) + 1` and explicit slots pass
through unchanged; on the settings side, however, the extruder value for a
slot-0 part is `((partID - 1) mod 4) + 1` for the *settings part counter*
`partID` (the position of the part in the settings document's group order,
which is the packing order), and the extruder metadata entry is present
exactly when the resolved slot differs from 1. -/
theorem filament_slot_resolution (sqrtModel : ℚ → ℚ) (inputs : List InputPart)
    (ogs : List GroupCfg) (margin : ℚ) (alg : PackingAlgorithm)
    (groups : List GroupOut) (items : List Item) :
    (∀ k, k < inputs.length →
      ((combineInternal sqrtModel inputs ogs margin alg).objects.getD k
          ⟨0, "", none, none, []⟩).pid
        = some (resolveSlot ((inputs.getD k ⟨⟨[]⟩, defaultScad⟩).scad.filamentSlot) k))
    ∧ (∀ k, k < (flatPartsOf groups).length →
      ((settingsParts (writeModelSettings groups items)).getD k ⟨0, "", [], 0⟩).id = k + 1
      ∧ (¬ settingsSlot (((flatPartsOf groups).getD k defaultScad).filamentSlot) (k + 1) = 1 →
          SMeta.mk "extruder"
              (toString (settingsSlot (((flatPartsOf groups).getD k
                defaultScad).filamentSlot) (k + 1))) 0
            ∈ ((settingsParts (writeModelSettings groups items)).getD k
                ⟨0, "", [], 0⟩).metadata)
      ∧ (settingsSlot (((flatPartsOf groups).getD k defaultScad).filamentSlot) (k + 1) = 1 →
          ∀ (v : String) (fc : ℤ), ¬ SMeta.mk "extruder" v fc
            ∈ ((settingsParts (writeModelSettings groups items)).getD k
                ⟨0, "", [], 0⟩).metadata)) := by
  constructor
  · intro k hk
    rw [combine_objects_getD sqrtModel inputs ogs margin alg k hk]
    have hpid : (normalizeMeshObject inputs ogs
        ((ingest 0 inputs).getD k ⟨0, "", none, none, []⟩)).pid
        = ((ingest 0 inputs).getD k ⟨0, "", none, none, []⟩).pid := rfl
    rw [hpid, ingest_pid inputs 0 k hk]
    simp
  · intro k hk
    have h := buildObjectsLoop_flatParts groups 1 0 k (by simpa [flatPartsOf] using hk)
    have harith : 1 + k = k + 1 := by omega
    rw [harith] at h
    simpa [settingsParts, writeModelSettings, flatPartsOf] using h


/-- C7 counterexample: for `reorderInputs` the model gives part "a"
(ingestion index 0, slot 0) PID `(0 mod 4) + 1 = 1`, but the settings
document — which enumerates parts in packing order, where the taller "b"
comes first — gives "a" the extruder value "2", not the claimed cyclic
value for its ingestion index. -/
theorem filament_settings_counterexample :
    (((combineInternal (fun _ => 0) reorderInputs [] 10 PackingAlgorithm.default).objects.getD 0
        ⟨0, "", none, none, []⟩).pid = some 1)
    ∧ SMeta.mk "name" "a" 0 ∈
        ((reorderSettings.objects.getD 1 ⟨0, [], []⟩).parts.getD 0 ⟨0, "", [], 0⟩).metadata
    ∧ SMeta.mk "extruder" "2" 0 ∈
        ((reorderSettings.objects.getD 1 ⟨0, [], []⟩).parts.getD 0 ⟨0, "", [], 0⟩).metadata
    ∧ ((0 : ℤ) % 4) + 1 = 1 := by
  norm_num +decide [reorderSettings, reorderInputs, combineInternal, ingest, rotateMeshVertices,
    resolveSlot, normalizeAll, normalizeMeshObject, zOffsetFor, effectiveNormalize,
    memberEffMinZs, listMinQ, applyZOffsetQ, meshMinZ, baseName, objectOrderOf, groupInputs,
    memberIndices, groupInfos, groupInfoOf, footprintOf, calcMeshBBox, multiBBox, packRects,
    packOptimal, sortByHeightDesc, List.insertionSort, List.orderedInsert, packOptimalLoop,
    emitLoop, infoAt, defaultInfo, defaultScad, buildTranslationTransform, formatFixedChars,
    natToDigits, natDigitsRevAux, natToFixed, joinSp, writeModelSettings, buildObjectsLoop,
    buildPartsLoop, settingsSlot, List.enum, List.enumFrom]

/-- C7 witness: with a single slot-0 input the model PID rule applies at
index 0, and with a single slot-3 settings part the extruder entry is
present with value "3". -/
theorem filament_slot_resolution_witness :
    (((combineInternal (fun _ => 0) [⟨⟨[⟨0, 0, 0⟩]⟩, ⟨"a", 0, 0, 0, 0, 0, 0, 0⟩⟩] [] 10
        PackingAlgorithm.default).objects.getD 0 ⟨0, "", none, none, []⟩).pid
      = some (resolveSlot ((([⟨⟨[⟨0, 0, 0⟩]⟩, ⟨"a", 0, 0, 0, 0, 0, 0, 0⟩⟩] :
          List InputPart).getD 0 ⟨⟨[]⟩, defaultScad⟩).scad.filamentSlot) 0))
    ∧ (((settingsParts (writeModelSettings [⟨5, "g", [⟨"p", 3, 0, 0, 0, 0, 0, 0⟩], true⟩]
          [])).getD 0 ⟨0, "", [], 0⟩).id = 0 + 1
      ∧ (¬ settingsSlot (((flatPartsOf [⟨5, "g", [⟨"p", 3, 0, 0, 0, 0, 0, 0⟩], true⟩]).getD 0
            defaultScad).filamentSlot) (0 + 1) = 1 →
          SMeta.mk "extruder"
              (toString (settingsSlot (((flatPartsOf [⟨5, "g", [⟨"p", 3, 0, 0, 0, 0, 0, 0⟩],
                true⟩]).getD 0 defaultScad).filamentSlot) (0 + 1))) 0
            ∈ ((settingsParts (writeModelSettings [⟨5, "g", [⟨"p", 3, 0, 0, 0, 0, 0, 0⟩],
                true⟩] [])).getD 0 ⟨0, "", [], 0⟩).metadata)
      ∧ (settingsSlot (((flatPartsOf [⟨5, "g", [⟨"p", 3, 0, 0, 0, 0, 0, 0⟩], true⟩]).getD 0
            defaultScad).filamentSlot) (0 + 1) = 1 →
          ∀ (v : String) (fc : ℤ), ¬ SMeta.mk "extruder" v fc
            ∈ ((settingsParts (writeModelSettings [⟨5, "g", [⟨"p", 3, 0, 0, 0, 0, 0, 0⟩],
                true⟩] [])).getD 0 ⟨0, "", [], 0⟩).metadata)) :=
  ⟨(filament_slot_resolution (fun _ => 0) [⟨⟨[⟨0, 0, 0⟩]⟩, ⟨"a", 0, 0, 0, 0, 0, 0, 0⟩⟩] [] 10
      PackingAlgorithm.default [] []).1 0 (by norm_num),
   (filament_slot_resolution (fun _ => 0) [] [] 0 PackingAlgorithm.default
      [⟨5, "g", [⟨"p", 3, 0, 0, 0, 0, 0, 0⟩], true⟩] []).2 0 (by decide)⟩

/-! ### Settings document structure (C9) -/

lemma settingsParts_length (groups : List GroupOut) (items : List Item) :
    (settingsParts (writeModelSettings groups items)).length = (flatPartsOf groups).length := by
  have h := buildObjectsLoop_parts_lengths groups 1 0
  simp only [settingsParts, writeModelSettings, flatPartsOf, List.length_flatten,
    List.map_map, Function.comp_def]
  rw [h]

/-- C9 (amended): the settings document has exactly one settings-object per
ObjectGroup with the group's object ID, exactly one part entry per
MeshPart, and exactly one assemble-item per BuildItem whose transform
equals that BuildItem's transform; a part entry carries an `extruder`
metadata equal to its resolved filament slot when that slot differs from
1, and carries no `extruder` metadata when it equals 1 (the default). -/
theorem settings_document_structure (groups : List GroupOut) (items : List Item) :
    ((writeModelSettings groups items).objects.map (fun o => o.id)) = groups.map (fun g => g.id)
    ∧ ((writeModelSettings groups items).objects.map (fun o => o.parts.length))
        = groups.map (fun g => g.parts.length)
    ∧ (settingsParts (writeModelSettings groups items)).length = (flatPartsOf groups).length
    ∧ (writeModelSettings groups items).assembleItems
        = items.map (fun it => ⟨it.objectID, "0", it.transform, "0 0 0"⟩)
    ∧ (∀ k, k < (flatPartsOf groups).length →
        (¬ settingsSlot (((flatPartsOf groups).getD k defaultScad).filamentSlot) (k + 1) = 1 →
          SMeta.mk "extruder"
              (toString (settingsSlot (((flatPartsOf groups).getD k
                defaultScad).filamentSlot) (k + 1))) 0
            ∈ ((settingsParts (writeModelSettings groups items)).getD k
                ⟨0, "", [], 0⟩).metadata)
        ∧ (settingsSlot (((flatPartsOf groups).getD k defaultScad).filamentSlot) (k + 1) = 1 →
          ∀ (v : String) (fc : ℤ), ¬ SMeta.mk "extruder" v fc
            ∈ ((settingsParts (writeModelSettings groups items)).getD k
                ⟨0, "", [], 0⟩).metadata)) := by
  refine ⟨?_, ?_, settingsParts_length groups items, rfl, ?_⟩
  · simpa [writeModelSettings] using buildObjectsLoop_ids groups 1 0
  · simpa [writeModelSettings] using buildObjectsLoop_parts_lengths groups 1 0
  · intro k hk
    have h := buildObjectsLoop_flatParts groups 1 0 k (by simpa [flatPartsOf] using hk)
    have harith : 1 + k = k + 1 := by omega
    rw [harith] at h
    have h2 := h.2
    simpa [settingsParts, writeModelSettings, flatPartsOf] using h2

/-- C9 counterexample: a part whose filament slot is 1 gets a settings part
entry with no `extruder` metadata at all — the entry does not carry the
part's filament value, contradicting the claim as stated. -/
theorem settings_extruder_omitted_counterexample :
    ((((writeModelSettings [⟨7, "g", [⟨"p", 1, 0, 0, 0, 0, 0, 0⟩], true⟩] []).objects.getD 0
        ⟨0, [], []⟩).parts.getD 0 ⟨0, "", [], 0⟩).metadata
      = [⟨"name", "p", 0⟩, ⟨"matrix", "1 0 0 0 0 1 0 0 0 0 1 0 0 0 0 1", 0⟩,
         ⟨"source_file", "combined.3mf", 0⟩, ⟨"source_object_id", "0", 0⟩,
         ⟨"source_volume_id", "0", 0⟩]) := by
  norm_num +decide [writeModelSettings, buildObjectsLoop, buildPartsLoop, settingsSlot]

/-- C9 witness: at a single slot-3 part the structural statement applies and
the extruder entry "3" is present. -/
theorem settings_document_structure_witness :
    ((writeModelSettings [⟨5, "g", [⟨"p", 3, 0, 0, 0, 0, 0, 0⟩], true⟩] []).objects.map
        (fun o => o.id)) = [5]
    ∧ ((¬ settingsSlot (((flatPartsOf [⟨5, "g", [⟨"p", 3, 0, 0, 0, 0, 0, 0⟩], true⟩]).getD 0
            defaultScad).filamentSlot) (0 + 1) = 1 →
        SMeta.mk "extruder"
            (toString (settingsSlot (((flatPartsOf [⟨5, "g", [⟨"p", 3, 0, 0, 0, 0, 0, 0⟩],
              true⟩]).getD 0 defaultScad).filamentSlot) (0 + 1))) 0
          ∈ ((settingsParts (writeModelSettings [⟨5, "g", [⟨"p", 3, 0, 0, 0, 0, 0, 0⟩],
              true⟩] [])).getD 0 ⟨0, "", [], 0⟩).metadata)
      ∧ (settingsSlot (((flatPartsOf [⟨5, "g", [⟨"p", 3, 0, 0, 0, 0, 0, 0⟩], true⟩]).getD 0
            defaultScad).filamentSlot) (0 + 1) = 1 →
        ∀ (v : String) (fc : ℤ), ¬ SMeta.mk "extruder" v fc
          ∈ ((settingsParts (writeModelSettings [⟨5, "g", [⟨"p", 3, 0, 0, 0, 0, 0, 0⟩],
              true⟩] [])).getD 0 ⟨0, "", [], 0⟩).metadata)) :=
  ⟨by
    have h := (settings_document_structure [⟨5, "g", [⟨"p", 3, 0, 0, 0, 0, 0, 0⟩], true⟩] []).1
    simpa using h,
   (settings_document_structure [⟨5, "g", [⟨"p", 3, 0, 0, 0, 0, 0, 0⟩], true⟩] []).2.2.2.2
     0 (by decide)⟩


/-! ### Decimal formatting and parsing round-trip (C8) -/

lemma digitChar_props (k : ℕ) (h : k < 10) :
    (Nat.digitChar k).isDigit = true ∧ (Nat.digitChar k).isWhitespace = false
      ∧ digitVal (Nat.digitChar k) = k := by
  interval_cases k <;> exact ⟨by decide, by decide, by decide⟩

lemma isDigit_ne_special (c : Char) (h : c.isDigit = true) :
    ¬ c = '-' ∧ ¬ c = '+' ∧ ¬ c = '.' ∧ ¬ c = 'e' ∧ ¬ c = 'E' := by
  refine ⟨?_, ?_, ?_, ?_, ?_⟩ <;> intro hEq <;> subst hEq <;> exact absurd h (by decide)

lemma digitsVal_reverse (l : List Char) :
    digitsVal l.reverse = l.foldr (fun c a => 10 * a + digitVal c) 0 := by
  rw [digitsVal, List.foldl_reverse]

lemma natDigitsRevAux_spec :
    ∀ (fuel n : ℕ), n < fuel →
      (∀ c ∈ natDigitsRevAux fuel n, c.isDigit = true ∧ c.isWhitespace = false)
      ∧ ¬ natDigitsRevAux fuel n = []
      ∧ (natDigitsRevAux fuel n).foldr (fun c a => 10 * a + digitVal c) 0 = n := by
  intro fuel
  induction fuel with
  | zero => intro n hn; omega
  | succ f ih =>
    intro n hn
    by_cases h10 : n < 10
    · simp only [natDigitsRevAux, if_pos h10]
      have hd := digitChar_props n h10
      refine ⟨?_, by simp, ?_⟩
      · intro c hc
        rcases List.mem_singleton.mp hc with rfl
        exact ⟨hd.1, hd.2.1⟩
      · simp [hd.2.2]
    · simp only [natDigitsRevAux, if_neg h10]
      have hdiv : n / 10 < f := by
        have h1 : n / 10 < n := Nat.div_lt_self (by omega) (by omega)
        omega
      have hrec := ih (n / 10) hdiv
      have hd := digitChar_props (n % 10) (Nat.mod_lt n (by omega))
      refine ⟨?_, by simp, ?_⟩
      · intro c hc
        rcases List.mem_cons.mp hc with rfl | hc2
        · exact ⟨hd.1, hd.2.1⟩
        · exact hrec.1 c hc2
      · simp only [List.foldr_cons, hrec.2.2, hd.2.2]
        omega

lemma natToDigits_digitsVal (n : ℕ) : digitsVal (natToDigits n) = n := by
  rw [natToDigits, digitsVal_reverse]
  exact (natDigitsRevAux_spec (n + 1) n (by omega)).2.2

lemma natToDigits_props (n : ℕ) :
    ∀ c ∈ natToDigits n, c.isDigit = true ∧ c.isWhitespace = false := by
  intro c hc
  rw [natToDigits, List.mem_reverse] at hc
  exact (natDigitsRevAux_spec (n + 1) n (by omega)).1 c hc

lemma natToDigits_ne_nil (n : ℕ) : ¬ natToDigits n = [] := by
  rw [natToDigits]
  intro h
  rw [List.reverse_eq_nil_iff] at h
  exact (natDigitsRevAux_spec (n + 1) n (by omega)).2.1 h

lemma natToFixed_length : ∀ (p m : ℕ), (natToFixed p m).length = p := by
  intro p
  induction p with
  | zero => intro m; simp [natToFixed]
  | succ p0 ih => intro m; simp [natToFixed, ih]

lemma digitsVal_from : ∀ (l : List Char) (a : ℕ),
    l.foldl (fun a c => 10 * a + digitVal c) a = a * 10 ^ l.length + digitsVal l := by
  intro l
  induction l with
  | nil => intro a; simp [digitsVal]
  | cons c l ih =>
    intro a
    have h1 := ih (10 * a + digitVal c)
    have h2 := ih (10 * 0 + digitVal c)
    simp only [List.foldl_cons, digitsVal] at h1 h2 ⊢
    rw [h1, h2]
    simp only [List.length_cons]
    ring

lemma natToFixed_spec : ∀ (p m : ℕ), m < 10 ^ p →
    (∀ c ∈ natToFixed p m, c.isDigit = true ∧ c.isWhitespace = false)
    ∧ digitsVal (natToFixed p m) = m := by
  intro p
  induction p with
  | zero =>
    intro m hm
    have : m = 0 := by simpa using hm
    subst this
    exact ⟨by intro c hc; simp [natToFixed] at hc, by simp [natToFixed, digitsVal]⟩
  | succ p0 ih =>
    intro m hm
    have hdig : m / 10 ^ p0 < 10 := by
      rw [Nat.div_lt_iff_lt_mul (Nat.pos_pow_of_pos p0 (by omega))]
      calc m < 10 ^ (p0 + 1) := hm
        _ = 10 * 10 ^ p0 := by rw [pow_succ]; ring
    have hmod : m % 10 ^ p0 < 10 ^ p0 := Nat.mod_lt m (Nat.pos_pow_of_pos p0 (by omega))
    have hrec := ih (m % 10 ^ p0) hmod
    have hd := digitChar_props (m / 10 ^ p0) hdig
    constructor
    · intro c hc
      rcases List.mem_cons.mp hc with rfl | hc2
      · exact ⟨hd.1, hd.2.1⟩
      · exact hrec.1 c hc2
    · show List.foldl (fun a c => 10 * a + digitVal c) 0 (natToFixed (p0 + 1) m) = m
      simp only [natToFixed, List.foldl_cons]
      rw [digitsVal_from]
      simp only [natToFixed_length]
      rw [hd.2.2, hrec.2]
      calc (10 * 0 + m / 10 ^ p0) * 10 ^ p0 + m % 10 ^ p0
          = 10 ^ p0 * (m / 10 ^ p0) + m % 10 ^ p0 := by ring
        _ = m := Nat.div_add_mod m (10 ^ p0)


lemma spanDigits_split : ∀ (ds rest : List Char), (∀ c ∈ ds, c.isDigit = true) →
    (rest = [] ∨ ∃ c cs, rest = c :: cs ∧ c.isDigit = false) →
    spanDigits (ds ++ rest) = (ds, rest) := by
  intro ds
  induction ds with
  | nil =>
    intro rest _ hrest
    rcases hrest with rfl | ⟨c, cs, rfl, hc⟩
    · rfl
    · simp [spanDigits, hc]
  | cons d ds ih =>
    intro rest hds hrest
    have hd : d.isDigit = true := hds d (List.mem_cons_self d ds)
    have hih := ih rest (fun c hc => hds c (List.mem_cons_of_mem d hc)) hrest
    simp [spanDigits, hd, hih]

lemma parseFloatCore_digits_dot (a f : List Char)
    (ha : ∀ c ∈ a, c.isDigit = true) (ha0 : ¬ a = [])
    (hf : ∀ c ∈ f, c.isDigit = true) :
    parseFloatCore (a ++ '.' :: f)
      = some ((digitsVal a : ℚ) + (digitsVal f : ℚ) / 10 ^ f.length) := by
  obtain ⟨c0, t0, rfl⟩ : ∃ c0 t0, a = c0 :: t0 := by
    cases a with
    | nil => exact absurd rfl ha0
    | cons c0 t0 => exact ⟨c0, t0, rfl⟩
  have hc0 := ha c0 (List.mem_cons_self c0 t0)
  obtain ⟨hcm, hcp, _, _, _⟩ := isDigit_ne_special c0 hc0
  have hspanA : spanDigits (c0 :: (t0 ++ '.' :: f)) = (c0 :: t0, '.' :: f) := by
    have h := spanDigits_split (c0 :: t0) ('.' :: f) ha (Or.inr ⟨'.', f, rfl, by decide⟩)
    simpa using h
  have hspanF : spanDigits f = (f, []) := by
    have h := spanDigits_split f [] hf (Or.inl rfl)
    simpa using h
  simp [parseFloatCore, hcm, hcp, hspanA, hspanF, startsWith]

lemma parseFloatCore_neg_digits_dot (a f : List Char)
    (ha : ∀ c ∈ a, c.isDigit = true) (ha0 : ¬ a = [])
    (hf : ∀ c ∈ f, c.isDigit = true) :
    parseFloatCore ('-' :: (a ++ '.' :: f))
      = some (-((digitsVal a : ℚ) + (digitsVal f : ℚ) / 10 ^ f.length)) := by
  obtain ⟨c0, t0, rfl⟩ : ∃ c0 t0, a = c0 :: t0 := by
    cases a with
    | nil => exact absurd rfl ha0
    | cons c0 t0 => exact ⟨c0, t0, rfl⟩
  have hspanA : spanDigits (c0 :: (t0 ++ '.' :: f)) = (c0 :: t0, '.' :: f) := by
    have h := spanDigits_split (c0 :: t0) ('.' :: f) ha (Or.inr ⟨'.', f, rfl, by decide⟩)
    simpa using h
  have hspanF : spanDigits f = (f, []) := by
    have h := spanDigits_split f [] hf (Or.inl rfl)
    simpa using h
  simp [parseFloatCore, hspanA, hspanF, startsWith]

lemma parseFloatCore_formatFixed (prec : ℕ) (q : ℚ) :
    parseFloatCore (formatFixedChars prec q) = some (formatFixedVal prec q) := by
  have hpow : 0 < 10 ^ prec := Nat.pos_pow_of_pos prec (by omega)
  have hmod : (round (|q| * 10 ^ prec)).toNat % 10 ^ prec < 10 ^ prec :=
    Nat.mod_lt _ hpow
  obtain ⟨hfdig, hfval⟩ := natToFixed_spec prec _ hmod
  have hAdig : ∀ c ∈ natToDigits ((round (|q| * 10 ^ prec)).toNat / 10 ^ prec),
      c.isDigit = true :=
    fun c hc => (natToDigits_props _ c hc).1
  have hne := natToDigits_ne_nil ((round (|q| * 10 ^ prec)).toNat / 10 ^ prec)
  have hfd : ∀ c ∈ natToFixed prec ((round (|q| * 10 ^ prec)).toNat % 10 ^ prec),
      c.isDigit = true := fun c hc => (hfdig c hc).1
  have hvaleq : ((((round (|q| * 10 ^ prec)).toNat / 10 ^ prec : ℕ) : ℚ)
        + (((round (|q| * 10 ^ prec)).toNat % 10 ^ prec : ℕ) : ℚ) / 10 ^ prec)
      = ((round (|q| * 10 ^ prec)).toNat : ℚ) / 10 ^ prec := by
    have hdm : (10 ^ prec) * ((round (|q| * 10 ^ prec)).toNat / 10 ^ prec)
        + (round (|q| * 10 ^ prec)).toNat % 10 ^ prec
        = (round (|q| * 10 ^ prec)).toNat := Nat.div_add_mod _ _
    have hcast : ((10 : ℚ) ^ prec) * (((round (|q| * 10 ^ prec)).toNat / 10 ^ prec : ℕ) : ℚ)
        + (((round (|q| * 10 ^ prec)).toNat % 10 ^ prec : ℕ) : ℚ)
        = ((round (|q| * 10 ^ prec)).toNat : ℚ) := by
      exact_mod_cast congrArg (fun k : ℕ => (k : ℚ)) hdm
    have hq10 : ((10 : ℚ) ^ prec) ≠ 0 := by positivity
    field_simp
    linarith [hcast]
  by_cases hq : q < 0
  · have hchars : formatFixedChars prec q
        = '-' :: (natToDigits ((round (|q| * 10 ^ prec)).toNat / 10 ^ prec)
            ++ '.' :: natToFixed prec ((round (|q| * 10 ^ prec)).toNat % 10 ^ prec)) := by
      rw [formatFixedChars, if_pos hq]
      rfl
    rw [hchars, parseFloatCore_neg_digits_dot _ _ hAdig hne hfd,
      natToDigits_digitsVal, hfval, natToFixed_length, hvaleq,
      formatFixedVal, if_pos hq]
    congr 1
    ring
  · have hchars : formatFixedChars prec q
        = natToDigits ((round (|q| * 10 ^ prec)).toNat / 10 ^ prec)
            ++ '.' :: natToFixed prec ((round (|q| * 10 ^ prec)).toNat % 10 ^ prec) := by
      rw [formatFixedChars, if_neg hq]
      rfl
    rw [hchars, parseFloatCore_digits_dot _ _ hAdig hne hfd,
      natToDigits_digitsVal, hfval, natToFixed_length, hvaleq,
      formatFixedVal, if_neg hq]
    congr 1
    ring


lemma splitWs_nws : ∀ (t : List Char), (∀ c ∈ t, c.isWhitespace = false) →
    splitWs t = [t] := by
  intro t
  induction t with
  | nil => intro _; rfl
  | cons c r ih =>
    intro h
    have hc : c.isWhitespace = false := h c (List.mem_cons_self c r)
    have hr := ih (fun d hd => h d (List.mem_cons_of_mem c hd))
    simp [splitWs, hc, hr]

lemma splitWs_append_nws : ∀ (t rest : List Char), (∀ c ∈ t, c.isWhitespace = false) →
    splitWs (t ++ ' ' :: rest) = t :: splitWs rest := by
  intro t
  induction t with
  | nil =>
    intro rest _
    simp [splitWs, show (' ' : Char).isWhitespace = true from by decide]
  | cons c r ih =>
    intro rest h
    have hc : c.isWhitespace = false := h c (List.mem_cons_self c r)
    have hr := ih rest (fun d hd => h d (List.mem_cons_of_mem c hd))
    simp [splitWs, hc, hr]

lemma fieldsLx_joinSp : ∀ (toks : List (List Char)),
    (∀ t ∈ toks, ¬ t = []) →
    (∀ t ∈ toks, ∀ c ∈ t, c.isWhitespace = false) →
    ¬ toks = [] → fieldsLx (joinSp toks) = toks := by
  intro toks
  induction toks with
  | nil => intro _ _ h0; exact absurd rfl h0
  | cons t ts ih =>
    intro hne hws _
    have hte : ¬ t = [] := hne t (List.mem_cons_self t ts)
    have htw := hws t (List.mem_cons_self t ts)
    cases ts with
    | nil =>
      simp only [joinSp]
      rw [fieldsLx, splitWs_nws t htw]
      simp [hte]
    | cons t2 ts2 =>
      have hstep : joinSp (t :: t2 :: ts2) = t ++ ' ' :: joinSp (t2 :: ts2) := rfl
      rw [hstep, fieldsLx, splitWs_append_nws t _ htw]
      have hrest := ih (fun u hu => hne u (List.mem_cons_of_mem t hu))
        (fun u hu => hws u (List.mem_cons_of_mem t hu)) (by simp)
      rw [fieldsLx] at hrest
      simp [hte]
      simpa using hrest

lemma formatFixedChars_not_ws (prec : ℕ) (q : ℚ) :
    ∀ c ∈ formatFixedChars prec q, c.isWhitespace = false := by
  intro c hc
  have hmod : (round (|q| * 10 ^ prec)).toNat % 10 ^ prec < 10 ^ prec :=
    Nat.mod_lt _ (Nat.pos_pow_of_pos prec (by omega))
  obtain ⟨hfdig, _⟩ := natToFixed_spec prec _ hmod
  simp only [formatFixedChars, List.mem_append, List.mem_cons] at hc
  rcases hc with (hsign | hint) | hdot | hfrac
  · by_cases hq : q < 0
    · rw [if_pos hq] at hsign
      simp only [List.mem_singleton] at hsign
      subst hsign
      decide
    · rw [if_neg hq] at hsign
      exact absurd hsign (List.not_mem_nil c)
  · exact (natToDigits_props _ c hint).2
  · subst hdot; decide
  · exact (hfdig c hfrac).2

lemma formatFixedChars_ne_nil (prec : ℕ) (q : ℚ) :
    ¬ formatFixedChars prec q = [] := by
  simp [formatFixedChars]

lemma dropWhile_all {p : Char → Bool} : ∀ (l r : List Char), (∀ c ∈ l, p c = true) →
    List.dropWhile p (l ++ r) = List.dropWhile p r := by
  intro l
  induction l with
  | nil => intro r _; rfl
  | cons c t ih =>
    intro r h
    have hc : p c = true := h c (List.mem_cons_self c t)
    have ht := ih r (fun d hd => h d (List.mem_cons_of_mem c hd))
    simp [List.dropWhile, hc, ht]

lemma decimalDigitsOf_formatFixedChars (prec : ℕ) (q : ℚ) :
    decimalDigitsOf (formatFixedChars prec q) = prec := by
  rw [decimalDigitsOf, formatFixedChars]
  rw [dropWhile_all]
  · rw [show List.dropWhile (fun c => ¬ c = '.')
        ('.' :: natToFixed prec ((round (|q| * 10 ^ prec)).toNat % 10 ^ prec))
        = '.' :: natToFixed prec ((round (|q| * 10 ^ prec)).toNat % 10 ^ prec) from by
      simp [List.dropWhile]]
    simp [natToFixed_length]
  · intro c hcmem
    rcases List.mem_append.mp hcmem with hsign | hint
    · by_cases hq : q < 0
      · rw [if_pos hq] at hsign
        simp only [List.mem_singleton] at hsign
        subst hsign
        decide
      · rw [if_neg hq] at hsign
        simp at hsign
    · have hd := (natToDigits_props _ c hint).1
      obtain ⟨_, _, hdot, _, _⟩ := isDigit_ne_special c hd
      simpa using hdot


lemma abs_formatFixedVal_sub (prec : ℕ) (q : ℚ) :
    |formatFixedVal prec q - q| ≤ 1 / (2 * 10 ^ prec) := by
  have hpow : (0 : ℚ) < 10 ^ prec := by positivity
  have hrnd : (0 : ℤ) ≤ round (|q| * 10 ^ prec) := by
    rw [round_eq]
    exact Int.floor_nonneg.mpr (by positivity)
  have hcast : (((round (|q| * 10 ^ prec)).toNat : ℕ) : ℚ)
      = ((round (|q| * 10 ^ prec) : ℤ) : ℚ) := by
    exact_mod_cast congrArg (fun k : ℤ => (k : ℚ)) (Int.toNat_of_nonneg hrnd)
  have habs : abs (((round (|q| * 10 ^ prec) : ℤ) : ℚ) - |q| * 10 ^ prec) ≤ 1 / 2 := by
    rw [abs_sub_comm]
    exact abs_sub_round (|q| * 10 ^ prec)
  have key : abs (((round (|q| * 10 ^ prec) : ℤ) : ℚ) / 10 ^ prec - |q|)
      ≤ 1 / (2 * 10 ^ prec) := by
    have hrw : ((round (|q| * 10 ^ prec) : ℤ) : ℚ) / 10 ^ prec - |q|
        = (((round (|q| * 10 ^ prec) : ℤ) : ℚ) - |q| * 10 ^ prec) / 10 ^ prec := by
      field_simp
      ring
    rw [hrw, abs_div, abs_of_pos hpow]
    rw [div_le_iff₀ hpow]
    calc abs (((round (|q| * 10 ^ prec) : ℤ) : ℚ) - |q| * 10 ^ prec) ≤ 1 / 2 := habs
      _ = 1 / (2 * 10 ^ prec) * 10 ^ prec := by
        field_simp
  rw [formatFixedVal, hcast]
  by_cases hq : q < 0
  · rw [if_pos hq]
    have hq' : |q| = -q := abs_of_neg hq
    have hrw : -1 * ((round (|q| * 10 ^ prec) : ℤ) : ℚ) / 10 ^ prec - q
        = -(((round (|q| * 10 ^ prec) : ℤ) : ℚ) / 10 ^ prec - |q|) := by
      rw [hq']
      ring
    rw [hrw, abs_neg]
    exact key
  · rw [if_neg hq]
    have hq' : |q| = q := abs_of_nonneg (not_lt.mp hq)
    have hrw : 1 * ((round (|q| * 10 ^ prec) : ℤ) : ℚ) / 10 ^ prec - q
        = ((round (|q| * 10 ^ prec) : ℤ) : ℚ) / 10 ^ prec - |q| := by
      rw [hq']
      ring
    rw [hrw]
    exact key


lemma build0_tokens (tx ty tz : ℚ) :
    (buildRotationTransform0 tx ty tz).data
      = joinSp [formatFixedChars 8 (1 * 1), formatFixedChars 8 (1 * 0), formatFixedChars 8 (-0),
          formatFixedChars 8 (0 * 0 * 1 - 1 * 0), formatFixedChars 8 (0 * 0 * 0 + 1 * 1),
          formatFixedChars 8 (0 * 1), formatFixedChars 8 (1 * 0 * 1 + 0 * 0),
          formatFixedChars 8 (1 * 0 * 0 - 0 * 1), formatFixedChars 8 (1 * 1),
          formatFixedChars 2 tx, formatFixedChars 2 ty, formatFixedChars 2 tz] := rfl

lemma fieldsLx_build0 (tx ty tz : ℚ) :
    fieldsLx ((buildRotationTransform0 tx ty tz).data)
      = [formatFixedChars 8 (1 * 1), formatFixedChars 8 (1 * 0), formatFixedChars 8 (-0),
         formatFixedChars 8 (0 * 0 * 1 - 1 * 0), formatFixedChars 8 (0 * 0 * 0 + 1 * 1),
         formatFixedChars 8 (0 * 1), formatFixedChars 8 (1 * 0 * 1 + 0 * 0),
         formatFixedChars 8 (1 * 0 * 0 - 0 * 1), formatFixedChars 8 (1 * 1),
         formatFixedChars 2 tx, formatFixedChars 2 ty, formatFixedChars 2 tz] := by
  rw [build0_tokens]
  apply fieldsLx_joinSp
  · intro t ht
    simp only [List.mem_cons, List.not_mem_nil, or_false] at ht
    rcases ht with rfl | rfl | rfl | rfl | rfl | rfl | rfl | rfl | rfl | rfl | rfl | rfl <;>
      exact formatFixedChars_ne_nil _ _
  · intro t ht
    simp only [List.mem_cons, List.not_mem_nil, or_false] at ht
    rcases ht with rfl | rfl | rfl | rfl | rfl | rfl | rfl | rfl | rfl | rfl | rfl | rfl <;>
      exact formatFixedChars_not_ws _ _
  · simp

lemma fieldsOf_build0 (tx ty tz : ℚ) :
    fieldsOf (buildRotationTransform0 tx ty tz)
      = [String.mk (formatFixedChars 8 (1 * 1)), String.mk (formatFixedChars 8 (1 * 0)),
         String.mk (formatFixedChars 8 (-0)), String.mk (formatFixedChars 8 (0 * 0 * 1 - 1 * 0)),
         String.mk (formatFixedChars 8 (0 * 0 * 0 + 1 * 1)), String.mk (formatFixedChars 8 (0 * 1)),
         String.mk (formatFixedChars 8 (1 * 0 * 1 + 0 * 0)),
         String.mk (formatFixedChars 8 (1 * 0 * 0 - 0 * 1)), String.mk (formatFixedChars 8 (1 * 1)),
         String.mk (formatFixedChars 2 tx), String.mk (formatFixedChars 2 ty),
         String.mk (formatFixedChars 2 tz)] := by
  rw [fieldsOf, fieldsLx_build0]
  rfl

lemma parseTransformOffset_build0 (tx ty tz : ℚ) :
    parseTransformOffset (buildRotationTransform0 tx ty tz)
      = some (formatFixedVal 2 tx, formatFixedVal 2 ty, formatFixedVal 2 tz) := by
  simp only [parseTransformOffset, fieldsOf_build0]
  norm_num [List.getD_cons_succ, List.getD_cons_zero, parseFloatQ, parseFloatCore_formatFixed]


/-- C8: Parsing the translation offset back out of the string built by
`BuildRotationTransform(0,0,0,tx,ty,tz)` succeeds and recovers `(tx,ty,tz)`
to 2-decimal precision (each recovered component is within `1/200` of the
original), and the produced string has exactly 12 space-separated fields, of
which the first 9 (the rotation terms) carry 8 digits after the decimal
point and the last 3 (the translation terms) carry 2. -/
theorem transform_roundtrip (tx ty tz : ℚ) :
    (∃ px py pz,
        parseTransformOffset (buildRotationTransform0 tx ty tz) = some (px, py, pz)
          ∧ |px - tx| ≤ 1 / 200 ∧ |py - ty| ≤ 1 / 200 ∧ |pz - tz| ≤ 1 / 200)
      ∧ (fieldsOf (buildRotationTransform0 tx ty tz)).length = 12
      ∧ (∀ t ∈ (fieldsOf (buildRotationTransform0 tx ty tz)).take 9,
          decimalDigitsOf t.data = 8)
      ∧ (∀ t ∈ (fieldsOf (buildRotationTransform0 tx ty tz)).drop 9,
          decimalDigitsOf t.data = 2) := by
  have h200 : (1 / 200 : ℚ) = 1 / (2 * 10 ^ 2) := by norm_num
  refine ⟨⟨formatFixedVal 2 tx, formatFixedVal 2 ty, formatFixedVal 2 tz,
      parseTransformOffset_build0 tx ty tz, ?_, ?_, ?_⟩, ?_, ?_, ?_⟩
  · rw [h200]
    exact abs_formatFixedVal_sub 2 tx
  · rw [h200]
    exact abs_formatFixedVal_sub 2 ty
  · rw [h200]
    exact abs_formatFixedVal_sub 2 tz
  · rw [fieldsOf_build0]
    rfl
  · rw [fieldsOf_build0]
    intro t ht
    simp only [List.take, List.mem_cons, List.not_mem_nil, or_false] at ht
    rcases ht with rfl | rfl | rfl | rfl | rfl | rfl | rfl | rfl | rfl <;>
      exact decimalDigitsOf_formatFixedChars 8 _
  · rw [fieldsOf_build0]
    intro t ht
    simp only [List.drop, List.mem_cons, List.not_mem_nil, or_false] at ht
    rcases ht with rfl | rfl | rfl <;>
      exact decimalDigitsOf_formatFixedChars 2 _

/-- Concrete instance of the transform round-trip at `(tx,ty,tz) = (21/2, 20, -3)`:
the built string splits into exactly 12 fields. -/
theorem transform_roundtrip_witness :
    (fieldsOf (buildRotationTransform0 (21 / 2) 20 (-3))).length = 12 :=
  (transform_roundtrip (21 / 2) 20 (-3)).2.1

end Go3mf
